import Mathlib

/-!
Shallow embedding of the KLayout CIF reader (`src/db/db/dbCIFReader.cc`)
together with a verification of its natural-language specification.

Modelling conventions used throughout this file:

* The input stream (`tl::InputStream`) is a `List Char`; reading consumes
  characters from the front.  The line number the stream keeps for
  diagnostics is not modelled.
* C `int` arithmetic is modelled on `ℤ` with explicit two's-complement
  wrapping (`wrap32`) at the operations that can overflow in C.
* `double` arithmetic is modelled exactly on `ℚ`.  The C library `sqrt`
  (used only for the rotated-box branch of `B` and for normalising the
  displacement under an `R` transformation token) is abstracted into an
  oracle `rsqrt : ℚ → ℚ` carried by the reader configuration; theorems
  either hold for every oracle or instantiate it at inputs where the exact
  square root is rational.
* `CIFReader::error` unconditionally throws `CIFReaderException`; it is
  modelled by `Except.error` carrying the message and the current cell
  name.  Code that follows a call of `error ()` in the C++ source is
  unreachable and therefore omitted from the embedding.
* `CIFReader::warn` only logs; warnings are not modelled.
* The per-invocation counters (`insts`, `shapes`, `layer_specs`) and a few
  ghost fields (`dsCount`, `dsIds`, `cRefs`, the name given to the top
  cell) are returned by the embedding for specification purposes only;
  they never influence the behaviour of the modelled code.
* The external layout object, layer map and name-dedup service (declared
  out of scope by the specification) are modelled from the spec as plain
  data (association lists).
-/

set_option maxRecDepth 8000

deriving instance DecidableEq for Except

/- The Batteries rational-number operations are marked irreducible, which
stops `decide` from evaluating the (perfectly computable) embedding on
concrete inputs; restore default reducibility for them in this file. -/
set_option allowUnsafeReducibility true

attribute [local semireducible] Rat.add Rat.mul Rat.div Rat.inv Rat.sub Rat.ofScientific

namespace CIF

/-! ## Character classes (C `<cctype>` on ASCII input) -/

def isUpperC (c : Char) : Bool := 'A' ≤ c && c ≤ 'Z'

def isLowerC (c : Char) : Bool := 'a' ≤ c && c ≤ 'z'

def isDigitC (c : Char) : Bool := '0' ≤ c && c ≤ '9'

/-- Backslash character (written via its code to keep the source plain). -/
def cBSlash : Char := Char.ofNat 92

/-- Double-quote character. -/
def cDQuote : Char := Char.ofNat 34

/-- Single-quote character. -/
def cSQuote : Char := Char.ofNat 39

def isSpaceC (c : Char) : Bool :=
  c = ' ' || c = Char.ofNat 9 || c = Char.ofNat 10 || c = Char.ofNat 11 ||
    c = Char.ofNat 12 || c = Char.ofNat 13

/-! ## Machine integers -/

/-- Two's-complement wrap of a C `int`. -/
def wrap32 (z : ℤ) : ℤ := (z + 2 ^ 31) % 2 ^ 32 - 2 ^ 31

/-- `std::numeric_limits<int>::max ()`. -/
def intMax : ℤ := 2147483647

/-- Rounding of a `double` coordinate to an integer layout coordinate
(`db::coord_traits::rounded` resp. the `db::Point`/`db::Box` constructors
taking doubles).  Rounds to the nearest integer (`⌊q + 1/2⌋`, written
through the executable `Rat.floor`); no statement below evaluates it at a
tie. -/
def rnd (q : ℚ) : ℤ := (q + 1/2).floor

/-- Reader error: `CIFReaderException` carries the message and the cell
name current at throw time (`CIFReader::error`). -/
structure Err where
  msg : String
  cellname : String
  deriving DecidableEq, Repr

/-! ## Lexer -/

/-- Stop set of `skip_blanks`: a CIF blank is any character that is not an
upper-case letter, digit, `-`, `(`, `)` or `;`. -/
def blankStop (c : Char) : Bool :=
  isUpperC c || isDigitC c || c = '-' || c = '(' || c = ')' || c = ';'

/-- translated from `CIFReader::skip_blanks` -/
def skipBlanks : List Char → List Char
  | [] => []
  | c :: cs => if blankStop c then c :: cs else skipBlanks cs

/-- Stop set of `skip_sep`. -/
def sepStop (c : Char) : Bool :=
  isDigitC c || c = '-' || c = '(' || c = ')' || c = ';'

/-- translated from `CIFReader::skip_sep` -/
def skipSep : List Char → List Char
  | [] => []
  | c :: cs => if sepStop c then c :: cs else skipSep cs

/-- Loop of `CIFReader::skip_comment`; `bl` is the parenthesis nesting
level.  The reader is already behind the opening `(` when this runs. -/
def skipCommentAux (bl : ℤ) : List Char → List Char
  | [] => []
  | c :: cs =>
    if c = ')' && !(bl > 0) then cs
    else skipCommentAux (if c = '(' then bl + 1 else if c = ')' then bl - 1 else bl) cs

/-- translated from `CIFReader::skip_comment` -/
def skipComment (s : List Char) : List Char := skipCommentAux 0 s

/-- translated from `CIFReader::get_char` (fatal at end of stream) -/
def getCh (cn : String) : List Char → Except Err (Char × List Char)
  | [] => .error ⟨"Unexpected end of file", cn⟩
  | c :: cs => .ok (c, cs)

/-- translated from `CIFReader::test_semi`; the blanks it skips stay
consumed (the C++ stream is a member). -/
def testSemi (s : List Char) : Bool × List Char :=
  let s' := skipBlanks s
  (s'.head? == some ';', s')

/-- translated from `CIFReader::expect_semi` -/
def expectSemi (cn : String) (s : List Char) : Except Err (List Char) :=
  match testSemi s with
  | (true, s') => (getCh cn s').map (·.2)
  | (false, _) => .error ⟨"Expected ; command terminator", cn⟩

/-- translated from `CIFReader::skip_to_end` -/
def skipToEnd : List Char → List Char
  | [] => []
  | c :: cs => if c = ';' then cs else skipToEnd cs

/-- Accumulation loop of `CIFReader::read_integer_digits`.  The overflow
check fires while a digit is still pending; since `error ()` throws, the
digit-skipping statements after it in the source are unreachable and
omitted here. -/
def riLoop (cn : String) (i : ℤ) : List Char → Except Err (ℤ × List Char)
  | [] => .ok (i, [])
  | c :: cs =>
    if isDigitC c then
      if i > intMax / 10 then .error ⟨"Integer overflow", cn⟩
      else riLoop cn (wrap32 (wrap32 (i * 10) + ((c.toNat : ℤ) - 48))) cs
    else .ok (i, c :: cs)

/-- translated from `CIFReader::read_integer_digits` -/
def readIntegerDigits (cn : String) (s : List Char) : Except Err (ℤ × List Char) :=
  match s with
  | [] => .error ⟨"Digit expected", cn⟩
  | c :: cs =>
    if isDigitC c then riLoop cn 0 (c :: cs) else .error ⟨"Digit expected", cn⟩

/-- translated from `CIFReader::read_integer` -/
def readInteger (cn : String) (s : List Char) : Except Err (ℤ × List Char) :=
  readIntegerDigits cn (skipSep s)

/-- translated from `CIFReader::read_sinteger` -/
def readSInteger (cn : String) (s : List Char) : Except Err (ℤ × List Char) :=
  match skipSep s with
  | '-' :: cs =>
    match readIntegerDigits cn cs with
    | .ok (i, r) => .ok (-i, r)
    | .error e => .error e
  | s' => readIntegerDigits cn s'

/-- Characters legal in a CIF name as accepted by `read_name` (officially
upper case and digits; lower case and underscore are KLayout extensions). -/
def nameChar (c : Char) : Bool := isUpperC c || isLowerC c || c = '_' || isDigitC c

def readNameAux : List Char → List Char × List Char
  | [] => ([], [])
  | c :: cs =>
    if nameChar c then
      let (r, rest) := readNameAux cs
      (c :: r, rest)
    else ([], c :: cs)

/-- translated from `CIFReader::read_name` -/
def readName (s : List Char) : String × List Char :=
  let s' := skipBlanks s
  let (r, rest) := readNameAux s'
  (String.mk r, rest)

/-- Ordinary whitespace skip of the external stream (`m_stream.skip`). -/
def skipWs : List Char → List Char
  | [] => []
  | c :: cs => if isSpaceC c then skipWs cs else c :: cs

/-- Quoted-string loop of `read_string`: stops in front of the closing
quote `q`; a backslash escapes the following character. -/
def readQuoted (q : Char) : List Char → List Char × List Char
  | [] => ([], [])
  | c :: cs =>
    if c = q then ([], c :: cs)
    else if c = cBSlash then
      match cs with
      | [] => ([c], [])
      | c2 :: cs2 =>
        let (r, rest) := readQuoted q cs2
        (c2 :: r, rest)
    else
      let (r, rest) := readQuoted q cs
      (c :: r, rest)

/-- Unquoted-string loop of `read_string`: up to whitespace or `;`. -/
def readUnquoted : List Char → List Char × List Char
  | [] => ([], [])
  | c :: cs =>
    if isSpaceC c || c = ';' then ([], c :: cs)
    else
      let (r, rest) := readUnquoted cs
      (c :: r, rest)

/-- translated from `CIFReader::read_string`; it has no error exit (the
inner `get_char` calls are guarded by end-of-stream tests). -/
def readStr (s : List Char) : String × List Char :=
  let s' := skipWs s
  match s' with
  | [] => ("", [])
  | q :: rest =>
    if q = cDQuote || q = cSQuote then
      let (r, rest2) := readQuoted q rest
      match rest2 with
      | [] => (String.mk r, [])
      | _ :: rest3 => (String.mk r, rest3)
    else
      let (r, rest2) := readUnquoted (q :: rest)
      (String.mk r, rest2)

/-- Character set collected by `read_double`. -/
def dblChar (c : Char) : Bool :=
  isDigitC c || c = '.' || c = '-' || c = 'e' || c = 'E'

def readDblRun : List Char → List Char × List Char
  | [] => ([], [])
  | c :: cs =>
    if dblChar c then
      let (r, rest) := readDblRun cs
      (c :: r, rest)
    else ([], c :: cs)

def takeDigits : List Char → List Char × List Char
  | [] => ([], [])
  | c :: cs =>
    if isDigitC c then
      let (r, rest) := takeDigits cs
      (c :: r, rest)
    else ([], c :: cs)

/-- Exact decimal value of a digit run (no wrapping; used by the `double`
parser where C parses into a `double`). -/
def decVal (ds : List Char) : ℤ :=
  ds.foldl (fun a c => a * 10 + ((c.toNat : ℤ) - 48)) 0

/-- Modelled from the spec: `tl::from_string` parsing of the collected run
as an IEEE double, yielding `0.0` for unparseable input (§4.A
`read_double`).  The usual fixed/scientific decimal forms are parsed
exactly over `ℚ`; anything else gives `0`. -/
def parseDecQ (s : List Char) : ℚ :=
  let p := match s with
    | '-' :: t => (true, t)
    | _ => (false, s)
  let ip := takeDigits p.2
  let fp := match ip.2 with
    | '.' :: t => takeDigits t
    | _ => ([], ip.2)
  if ip.1 = [] && fp.1 = [] then 0
  else
    let mant : ℚ := (decVal ip.1 : ℚ) + (decVal fp.1 : ℚ) / ((10 : ℚ) ^ fp.1.length)
    let ex : Option ℤ := match fp.2 with
      | [] => some 0
      | e :: t =>
        if e = 'e' || e = 'E' then
          match t with
          | '-' :: t2 =>
            let ds := takeDigits t2
            if ds.1 ≠ [] && ds.2 = [] then some (-decVal ds.1) else none
          | _ =>
            let ds := takeDigits t
            if ds.1 ≠ [] && ds.2 = [] then some (decVal ds.1) else none
        else none
    match ex with
    | none => 0
    | some ev => (if p.1 then -1 else 1) * mant * (10 : ℚ) ^ ev

/-- translated from `CIFReader::read_double` -/
def readDouble (s : List Char) : ℚ × List Char :=
  let s' := skipWs s
  let (r, rest) := readDblRun s'
  (parseDecQ r, rest)

/-! ## Layer name extraction (`extract_plain_layer`, `extract_ld`) -/

/-- Digit-run accumulator shared by `extract_plain_layer` and
`extract_ld` (C `int` accumulation, hence `wrap32`). -/
def digRun (l : ℤ) : List Char → ℤ × List Char
  | [] => (l, [])
  | c :: cs =>
    if isDigitC c then digRun (wrap32 (wrap32 (l * 10) + ((c.toNat : ℤ) - 48))) cs
    else (l, c :: cs)

/-- translated from `extract_plain_layer`: succeeds exactly on a non-empty
all-digit name. -/
def extractPlainLayer (s : List Char) : Option ℤ :=
  match s with
  | [] => none
  | _ =>
    let (l, rest) := digRun 0 s
    if rest = [] then some l else none

/-- Datatype part of `extract_ld`: after `D` or `.` at least one digit is
required. -/
def ldDatPart (t : List Char) : Option (ℤ × List Char) :=
  match t with
  | [] => none
  | c :: _ => if isDigitC c then some (digRun 0 t) else none

/-- translated from `extract_ld`: optional leading `L`, digits (layer),
optionally `D` or `.` followed by digits (datatype), then either the end
of the name, or one whitespace/underscore followed by the trailing tag. -/
def extractLD (s : List Char) : Option (ℤ × ℤ × String) :=
  let s1 := match s with
    | 'L' :: t => t
    | _ => s
  match s1 with
  | [] => none
  | c :: _ =>
    if !isDigitC c then none
    else
      let (l, r1) := digRun 0 s1
      let dres : Option (ℤ × List Char) := match r1 with
        | 'D' :: t => ldDatPart t
        | '.' :: t => ldDatPart t
        | _ => some (0, r1)
      match dres with
      | none => none
      | some (d, r2) =>
        match r2 with
        | [] => some (l, d, "")
        | c2 :: cs2 =>
          if isSpaceC c2 || c2 = '_' then some (l, d, String.mk cs2) else none

/-! ## Layer properties and the deferred layer finalization -/

/-- `db::LayerProperties`; the default-constructed value carries the
"unspecified" sentinels. -/
structure LayerProps where
  layer : ℤ := -1
  datatype : ℤ := -1
  name : String := ""
  deriving DecidableEq, Repr

/-- First finalization pass of `CIFReader::do_read` (source lines
967-989): names that parse as plain integers are bound to `(N, 0)` unless
that pair is already used; a successful binding is recorded in `used`, and
the entry is removed from the pending map. -/
def finalizePass1 :
    List (String × ℕ) → List (ℤ × ℤ) →
      List (ℕ × LayerProps) × List (String × ℕ) × List (ℤ × ℤ)
  | [], used => ([], [], used)
  | (nm, idx) :: rest, used =>
    match extractPlainLayer nm.toList with
    | some l =>
      if (l, 0) ∈ used then
        let (a, rem, u) := finalizePass1 rest used
        (a, (nm, idx) :: rem, u)
      else
        let (a, rem, u) := finalizePass1 rest ((l, 0) :: used)
        ((idx, { layer := l, datatype := 0, name := "" }) :: a, rem, u)
    | none =>
      let (a, rem, u) := finalizePass1 rest used
      (a, (nm, idx) :: rem, u)

/-- Second finalization pass (source lines 992-1017): remaining names in
LxDy notation are bound to `(L, D)` with the trailing tag as layer name,
with the same collision rule. -/
def finalizePass2 :
    List (String × ℕ) → List (ℤ × ℤ) →
      List (ℕ × LayerProps) × List (String × ℕ) × List (ℤ × ℤ)
  | [], used => ([], [], used)
  | (nm, idx) :: rest, used =>
    match extractLD nm.toList with
    | some (l, d, n) =>
      if (l, d) ∈ used then
        let (a, rem, u) := finalizePass2 rest used
        (a, (nm, idx) :: rem, u)
      else
        let (a, rem, u) := finalizePass2 rest ((l, d) :: used)
        ((idx, { layer := l, datatype := d, name := n }) :: a, rem, u)
    | none =>
      let (a, rem, u) := finalizePass2 rest used
      (a, (nm, idx) :: rem, u)

/-- Third finalization pass (source lines 1019-1024): every remaining
entry gets properties carrying only the string name. -/
def finalizePass3 (rem : List (String × ℕ)) : List (ℕ × LayerProps) :=
  rem.map fun p => (p.2, { layer := -1, datatype := -1, name := p.1 })

/-- translated from the `new_layers` finalization of `CIFReader::do_read`:
the three passes run in order, threading the set of used
(layer, datatype) pairs; the result lists the `set_properties`
assignments in call order. -/
def finalizeNewLayers (nl : List (String × ℕ)) (used : List (ℤ × ℤ)) :
    List (ℕ × LayerProps) :=
  let (a1, r1, u1) := finalizePass1 nl used
  let (a2, r2, _) := finalizePass2 r1 u1
  a1 ++ a2 ++ finalizePass3 r2

/-- Modelled from the spec (§4.C finalization): one finalization pass over
the pending entries.  Each entry whose name is accepted by `parse` and
whose (layer, datatype) pair is not yet in `used` is bound to the parsed
properties; the pair is added to `used`; all other entries remain. -/
def specPass (parse : String → Option LayerProps) :
    List (String × ℕ) → List (ℤ × ℤ) →
      List (ℕ × LayerProps) × List (String × ℕ) × List (ℤ × ℤ)
  | [], used => ([], [], used)
  | (nm, idx) :: rest, used =>
    match parse nm with
    | some lp =>
      if (lp.layer, lp.datatype) ∈ used then
        let (a, rem, u) := specPass parse rest used
        (a, (nm, idx) :: rem, u)
      else
        let (a, rem, u) := specPass parse rest ((lp.layer, lp.datatype) :: used)
        ((idx, lp) :: a, rem, u)
    | none =>
      let (a, rem, u) := specPass parse rest used
      (a, (nm, idx) :: rem, u)

/-- Modelled from the spec: pass 1 accepts names parsing as plain
integers `N`, binding `(N, 0)`. -/
def specParsePlain (nm : String) : Option LayerProps :=
  (extractPlainLayer nm.toList).map fun l => { layer := l, datatype := 0, name := "" }

/-- Modelled from the spec: pass 2 accepts names in LxDy notation,
binding `(L, D)` with the trailing tag as name. -/
def specParseLD (nm : String) : Option LayerProps :=
  (extractLD nm.toList).map fun p => { layer := p.1, datatype := p.2.1, name := p.2.2 }

/-- Modelled from the spec (§4.C): the three-pass finalization — plain
integers first, then LxDy names, then everything else with only the
string name set. -/
def specFinalize (nl : List (String × ℕ)) (used : List (ℤ × ℤ)) :
    List (ℕ × LayerProps) :=
  let (a1, r1, u1) := specPass specParsePlain nl used
  let (a2, r2, _) := specPass specParseLD r1 u1
  a1 ++ a2 ++ r2.map fun p => (p.2, { layer := -1, datatype := -1, name := p.1 })

/-! ## Geometry, transforms, cells and the layout

The layout object itself is an external collaborator (spec §1/§6); it is
modelled from the spec's layout contract as plain data.  Shapes record
the integer coordinates the layout stores after rounding the `double`
products handed over by the reader. -/

/-- A shape as inserted into a cell's per-layer shape container. -/
inductive Shape where
  | box (l b r t : ℤ)
  | poly (pts : List (ℤ × ℤ))
  | path (pts : List (ℤ × ℤ)) (width bgn fin : ℤ) (rounded : Bool)
  | text (s : String) (x y : ℤ) (size : ℤ)
  deriving DecidableEq, Repr

/-- Exact model of `db::DCplxTrans` as built by the reader: a unit-free
similarity `p ↦ mag · rot(u) · mirror^m · p + disp`.  The rotation is
kept as an unnormalised direction vector `u` (the rotation angle is
`atan2 u.2 u.1`), which composes exactly under the only products the
reader forms. -/
structure CTrans where
  mag : ℚ := 1
  u : ℚ × ℚ := (1, 0)
  mirror : Bool := false
  disp : ℚ × ℚ := (0, 0)
  deriving DecidableEq, Repr

/-- The identity transformation (`db::DCplxTrans ()`). -/
def idTrans : CTrans := {}

/-- Pre-multiplication with `db::DCplxTrans (db::FTrans::m90)` (the `M X`
token): mirror at the y-axis, `x ↦ -x`. -/
def applyMX (t : CTrans) : CTrans :=
  { mag := t.mag, u := (-t.u.1, t.u.2), mirror := !t.mirror,
    disp := (-t.disp.1, t.disp.2) }

/-- Pre-multiplication with `db::DCplxTrans (db::FTrans::m0)` (the `M Y`
token): mirror at the x-axis, `y ↦ -y`. -/
def applyMY (t : CTrans) : CTrans :=
  { mag := t.mag, u := (t.u.1, -t.u.2), mirror := !t.mirror,
    disp := (t.disp.1, -t.disp.2) }

/-- Pre-multiplication with a translation (`T` token, displacement already
scaled by `sf`). -/
def applyT (t : CTrans) (vx vy : ℚ) : CTrans :=
  { t with disp := (t.disp.1 + vx, t.disp.2 + vy) }

/-- Pre-multiplication with the pure rotation by `atan2 y x` built by the
`R` token.  The rotation directions multiply as complex numbers; the
displacement is rotated with normalisation by `1 / sqrt (x² + y²)`, the
library square root being the oracle `rsqrt`. -/
def applyR (rsqrt : ℚ → ℚ) (t : CTrans) (x y : ℤ) : CTrans :=
  let n : ℚ := 1 / rsqrt ((x : ℚ) * x + (y : ℚ) * y)
  { mag := t.mag,
    u := ((x : ℚ) * t.u.1 - (y : ℚ) * t.u.2, (x : ℚ) * t.u.2 + (y : ℚ) * t.u.1),
    mirror := t.mirror,
    disp := (n * ((x : ℚ) * t.disp.1 - (y : ℚ) * t.disp.2),
             n * ((y : ℚ) * t.disp.1 + (x : ℚ) * t.disp.2)) }

/-- `db::DCplxTrans::is_ortho`: the rotation angle is a multiple of 90
degrees, i.e. the direction vector lies on an axis. -/
def isOrtho (t : CTrans) : Bool := t.u.1 = 0 || t.u.2 = 0

/-- `db::DCplxTrans::is_mag`: the magnification differs from 1. -/
def isMag (t : CTrans) : Bool := t.mag ≠ 1

/-- A cell instance as stored by the reader's `C` command.  `intKind`
records whether the simple integer transform (`db::Trans`) or the complex
one (`db::ICplxTrans`) was used; `disp` is the displacement rounded to
integer coordinates; `arr` carries the optional array parameters
`(dx·sf rounded, dy·sf rounded, max 1 nx, max 1 ny)`. -/
structure Inst where
  child : ℕ
  intKind : Bool
  t : CTrans
  disp : ℤ × ℤ
  arr : Option (ℤ × ℤ × ℤ × ℤ) := none
  deriving DecidableEq, Repr

/-- A cell of the layout. -/
structure CifCell where
  idx : ℕ
  name : String
  shapes : List (ℕ × Shape) := []
  insts : List Inst := []
  deriving DecidableEq, Repr

/-- Modelled from the spec: the layout contract (§6) — cells addressed by
index, a layer table, and an index allocator. -/
structure Layout where
  cells : List CifCell := []
  layers : List (ℕ × LayerProps) := []
  nextCell : ℕ := 0
  dbuVal : ℚ := 1/1000
  deriving DecidableEq, Repr

def emptyLayout : Layout := {}

/-- Update the first element satisfying `p` (C++ mutates the single object
with that identity). -/
def updFirst (p : α → Bool) (f : α → α) : List α → List α
  | [] => []
  | x :: xs => if p x then f x :: xs else x :: updFirst p f xs

/-- Layout `add_cell`: allocates the next index. -/
def addCell (L : Layout) (nm : String) : Layout × ℕ :=
  ({ L with cells := L.cells ++ [{ idx := L.nextCell, name := nm }],
            nextCell := L.nextCell + 1 }, L.nextCell)

def getCell (L : Layout) (i : ℕ) : Option CifCell :=
  L.cells.find? fun c => c.idx == i

/-- Insertion into `cell.shapes (layer)`. -/
def insertShape (L : Layout) (i : ℕ) (s : ℕ × Shape) : Layout :=
  let cs := updFirst (fun c => c.idx == i) (fun c => { c with shapes := c.shapes ++ [s] }) L.cells
  { L with cells := cs }

/-- Insertion of a `db::CellInstArray`. -/
def insertInst (L : Layout) (i : ℕ) (inst : Inst) : Layout :=
  let cs := updFirst (fun c => c.idx == i) (fun c => { c with insts := c.insts ++ [inst] }) L.cells
  { L with cells := cs }

/-- Layout `rename_cell`. -/
def renameCell (L : Layout) (i : ℕ) (nm : String) : Layout :=
  let cs := updFirst (fun c => c.idx == i) (fun c => { c with name := nm }) L.cells
  { L with cells := cs }

/-- Layout `delete_cell`. -/
def removeCell (L : Layout) (i : ℕ) : Layout :=
  { L with cells := L.cells.filter fun c => c.idx ≠ i }

def isValidLayer (L : Layout) (i : ℕ) : Bool :=
  (L.layers.find? fun p => p.1 = i).isSome

/-- Layout `insert_layer` at a given index. -/
def insertLayer (L : Layout) (i : ℕ) (lp : LayerProps) : Layout :=
  { L with layers := L.layers ++ [(i, lp)] }

/-- Layout `set_properties` on an existing layer index. -/
def setLayerProps (L : Layout) (i : ℕ) (lp : LayerProps) : Layout :=
  { L with layers := updFirst (fun p => p.1 = i) (fun p => (p.1, lp)) L.layers }

def namesOf (L : Layout) : List String := L.cells.map (·.name)

/-- Instances of the cell with index `i` (empty when absent). -/
def instsOf (L : Layout) (i : ℕ) : List Inst :=
  match getCell L i with
  | some c => c.insts
  | none => []

/-- Shapes of the cell with index `i` (empty when absent). -/
def shapesOf (L : Layout) (i : ℕ) : List (ℕ × Shape) :=
  match getCell L i with
  | some c => c.shapes
  | none => []

/-- Modelled from the spec: the layout's name-dedup service
`uniquify_cell_name` (§6) — returns a name derived from `base` that is
used by no cell: `base` itself if free, else `base$k` for the first free
`k ≥ 1`; the final fallback (never reached) is a name longer than every
existing one, which keeps the model total and provably fresh. -/
def uniquifyCellName (L : Layout) (base : String) : String :=
  if base ∉ namesOf L then base
  else
    match (List.range (L.cells.length + 1)).find?
        (fun k => decide ((base ++ "$" ++ toString (k + 1)) ∉ namesOf L)) with
    | some k => base ++ "$" ++ toString (k + 1)
    | none => base ++ "$" ++ String.join (namesOf L)

/-! ## Layer map and configuration -/

/-- Modelled from the spec: the externally supplied layer map (§6) —
lookup by name, lookup by (layer, datatype) properties, the target
properties per index, and the next free index. -/
structure LayerMap where
  names : List (String × ℕ) := []
  props : List (LayerProps × ℕ) := []
  mappings : List (ℕ × LayerProps) := []
  nextIndex : ℕ := 0
  deriving DecidableEq, Repr

def logicalName (m : LayerMap) (nm : String) : Option ℕ :=
  (m.names.find? fun p => p.1 = nm).map (·.2)

/-- Lookup by numeric layer/datatype (the name is not part of the match
in this model of the external map). -/
def logicalProps (m : LayerMap) (lp : LayerProps) : Option ℕ :=
  (m.props.find? fun p => p.1.layer = lp.layer && p.1.datatype = lp.datatype).map (·.2)

def mappingOf (m : LayerMap) (i : ℕ) : LayerProps :=
  match m.mappings.find? fun p => p.1 = i with
  | some p => p.2
  | none => {}

def mapAdd (m : LayerMap) (lp : LayerProps) (i : ℕ) : LayerMap :=
  { m with mappings := m.mappings ++ [(i, lp)] }

/-- Reader configuration (`CIFReaderOptions` plus the `sqrt` oracle). -/
structure Config where
  dbu : ℚ := 1/1000
  wireMode : ℕ := 0
  createLayers : Bool := true
  layerMap : LayerMap := {}
  rsqrt : ℚ → ℚ

/-- Mutable reader state (`CIFReader` members).  `dsCount`, `dsIds` and
`cRefs` are ghost instrumentation: the number of `DS` commands processed,
the cell ids defined by `DS`, and the cell ids referenced by `C`. -/
structure RState where
  cellname : String := ""
  cellsById : List (ℕ × ℕ) := []
  newLayers : List (String × ℕ) := []
  nextLayerIndex : ℕ := 0
  layerMap : LayerMap := {}
  layout : Layout := {}
  dsCount : ℕ := 0
  dsIds : List ℕ := []
  cRefs : List ℕ := []
  deriving DecidableEq, Repr

def assocLookup (l : List (ℕ × ℕ)) (k : ℕ) : Option ℕ :=
  (l.find? fun p => p.1 = k).map (·.2)

/-- Ordered insertion into the `std::map<std::string, unsigned int>`
`m_new_layers` (iteration order is lexicographic in the key). -/
def insSortedStr (k : String) (v : ℕ) : List (String × ℕ) → List (String × ℕ)
  | [] => [(k, v)]
  | p :: ps => if k < p.1 then (k, v) :: p :: ps else p :: insSortedStr k v ps

def strLookup (l : List (String × ℕ)) (k : String) : Option ℕ :=
  (l.find? fun p => p.1 = k).map (·.2)

/-! ## Command handlers

Each handler is the body of one dispatch branch of `CIFReader::read_cell`,
entered after the command character has been consumed.  `cur` is the index
of the cell currently being filled. -/

/-- Layer selection, translated from the `L` branch (source lines
588-655).  Returns the new active layer together with the updated state
and stream. -/
def handleL (cfg : Config) (st : RState) (input : List Char) :
    Except Err (ℤ × RState × List Char) :=
  let input1 := skipBlanks input
  let (name, r1) := readName input1
  if name = "" then .error ⟨"Missing layer name in L command", st.cellname⟩
  else
    let ll : Option ℕ :=
      match logicalName st.layerMap name with
      | some v => some v
      | none =>
        match extractPlainLayer name.toList with
        | some l => logicalProps st.layerMap { layer := l, datatype := 0, name := "" }
        | none =>
          match extractLD name.toList with
          | some (l, d, onm) => logicalProps st.layerMap { layer := l, datatype := d, name := onm }
          | none => none
    match ll with
    | some idx =>
      let L' := if isValidLayer st.layout idx then st.layout
                else insertLayer st.layout idx (mappingOf st.layerMap idx)
      match expectSemi st.cellname r1 with
      | .error e => .error e
      | .ok r2 => .ok ((idx : ℤ), { st with layout := L' }, r2)
    | none =>
      if !cfg.createLayers then
        match expectSemi st.cellname r1 with
        | .error e => .error e
        | .ok r2 => .ok (-1, st, r2)
      else
        match strLookup st.newLayers name with
        | none =>
          let ll := st.nextLayerIndex
          let st' := { st with
            layout := insertLayer st.layout ll {},
            newLayers := insSortedStr name ll st.newLayers,
            nextLayerIndex := ll + 1 }
          match expectSemi st.cellname r1 with
          | .error e => .error e
          | .ok r2 => .ok ((ll : ℤ), st', r2)
        | some v =>
          match expectSemi st.cellname r1 with
          | .error e => .error e
          | .ok r2 => .ok ((v : ℤ), st, r2)

/-- Box construction, translated from the `B` branch (source lines
657-709).  The shape counter is incremented before the layer test. -/
def handleB (cfg : Config) (cn : String) (sf : ℚ) (layer : ℤ) (cur : ℕ)
    (shapes : ℕ) (L : Layout) (input : List Char) :
    Except Err (ℕ × Layout × List Char) :=
  if layer < 0 then .ok (shapes + 1, L, skipToEnd input)
  else
    match readInteger cn input with
    | .error e => .error e
    | .ok (w, r1) =>
    match readInteger cn r1 with
    | .error e => .error e
    | .ok (h, r2) =>
    match readSInteger cn r2 with
    | .error e => .error e
    | .ok (x, r3) =>
    match readSInteger cn r3 with
    | .error e => .error e
    | .ok (y, r4) =>
    let rxry : Except Err ((ℤ × ℤ) × List Char) :=
      match testSemi r4 with
      | (true, r5) => .ok ((0, 0), r5)
      | (false, r5) =>
        match readSInteger cn r5 with
        | .error e => .error e
        | .ok (rx, r6) =>
          match readSInteger cn r6 with
          | .error e => .error e
          | .ok (ry, r7) => .ok ((rx, ry), r7)
    match rxry with
    | .error e => .error e
    | .ok ((rx, ry), r7) =>
      let L' :=
        if rx ≥ 0 && ry = 0 then
          insertShape L cur (layer.toNat,
            .box (rnd (sf * ((x : ℚ) - (1/2) * w))) (rnd (sf * ((y : ℚ) - (1/2) * h)))
                 (rnd (sf * ((x : ℚ) + (1/2) * w))) (rnd (sf * ((y : ℚ) + (1/2) * h))))
        else
          let n : ℚ := 1 / cfg.rsqrt ((rx : ℚ) * rx + (ry : ℚ) * ry)
          let xw : ℚ := sf * w * (1/2) * rx * n
          let yw : ℚ := sf * w * (1/2) * ry * n
          let xh : ℚ := -(sf * h * (1/2) * ry * n)
          let yh : ℚ := sf * h * (1/2) * rx * n
          insertShape L cur (layer.toNat,
            .poly [(rnd ((x : ℚ) - xw - xh), rnd ((y : ℚ) - yw - yh)),
                   (rnd ((x : ℚ) - xw + xh), rnd ((y : ℚ) - yw + yh)),
                   (rnd ((x : ℚ) + xw + xh), rnd ((y : ℚ) + yw + yh)),
                   (rnd ((x : ℚ) + xw - xh), rnd ((y : ℚ) + yw - yh))])
      match expectSemi cn r7 with
      | .error e => .error e
      | .ok r8 => .ok (shapes + 1, L', r8)

/-- Point-list loop shared verbatim by the `P` and `W` branches: signed
point pairs until the terminating semicolon, each scaled by `sf` and
rounded. -/
def readPoints (cn : String) (sf : ℚ) : ℕ → List (ℤ × ℤ) → List Char →
    Except Err (List (ℤ × ℤ) × List Char)
  | 0, _, _ => .error ⟨"out of fuel", cn⟩
  | fuel + 1, acc, input =>
    match testSemi input with
    | (true, r) => .ok (acc, r)
    | (false, r) =>
      match readSInteger cn r with
      | .error e => .error e
      | .ok (rx, r1) =>
        match readSInteger cn r1 with
        | .error e => .error e
        | .ok (ry, r2) =>
          readPoints cn sf fuel (acc ++ [(rnd (sf * rx), rnd (sf * ry))]) r2

/-- Polygon construction, translated from the `P` branch (source lines
711-741). -/
def handleP (cn : String) (sf : ℚ) (layer : ℤ) (cur : ℕ) (shapes : ℕ)
    (fuel : ℕ) (L : Layout) (input : List Char) :
    Except Err (ℕ × Layout × List Char) :=
  if layer < 0 then .ok (shapes + 1, L, skipToEnd input)
  else
    match readPoints cn sf fuel [] input with
    | .error e => .error e
    | .ok (pts, r1) =>
      match expectSemi cn r1 with
      | .error e => .error e
      | .ok r2 => .ok (shapes + 1, insertShape L cur (layer.toNat, .poly pts), r2)

/-- Round flash, translated from the `R` branch (source lines 743-770): a
one-point round-ended path of width `sf·w`. -/
def handleR (cn : String) (sf : ℚ) (layer : ℤ) (cur : ℕ) (shapes : ℕ)
    (L : Layout) (input : List Char) :
    Except Err (ℕ × Layout × List Char) :=
  if layer < 0 then .ok (shapes + 1, L, skipToEnd input)
  else
    match readInteger cn input with
    | .error e => .error e
    | .ok (w, r1) =>
    match readSInteger cn r1 with
    | .error e => .error e
    | .ok (rx, r2) =>
    match readSInteger cn r2 with
    | .error e => .error e
    | .ok (ry, r3) =>
      let sh : Shape := .path [(rnd (sf * rx), rnd (sf * ry))] (rnd (sf * w))
        (rnd (sf * w / 2)) (rnd (sf * w / 2)) true
      match expectSemi cn r3 with
      | .error e => .error e
      | .ok r4 => .ok (shapes + 1, insertShape L cur (layer.toNat, sh), r4)

/-- End-cap selection of the `W` branch, translated from source lines
799-811: flush for `path_mode = 0` or (no override and `wire_mode = 1`);
round for `path_mode = 1` or (no override and `wire_mode = 2`); square
otherwise. -/
def wirePathOf (wireMode : ℕ) (pathMode : ℤ) (sf : ℚ) (w : ℤ)
    (pts : List (ℤ × ℤ)) : Shape :=
  if pathMode = 0 || (pathMode < 0 && wireMode = 1) then
    .path pts (rnd (sf * w)) 0 0 false
  else if pathMode = 1 || (pathMode < 0 && wireMode = 2) then
    .path pts (rnd (sf * w)) (rnd (sf * w / 2)) (rnd (sf * w / 2)) true
  else
    .path pts (rnd (sf * w)) (rnd (sf * w / 2)) (rnd (sf * w / 2)) false

/-- Wire construction, translated from the `W` branch (source lines
772-815). -/
def handleW (cfg : Config) (cn : String) (sf : ℚ) (pathMode layer : ℤ)
    (cur : ℕ) (shapes : ℕ) (fuel : ℕ) (L : Layout) (input : List Char) :
    Except Err (ℕ × Layout × List Char) :=
  if layer < 0 then .ok (shapes + 1, L, skipToEnd input)
  else
    match readInteger cn input with
    | .error e => .error e
    | .ok (w, r1) =>
      match readPoints cn sf fuel [] r1 with
      | .error e => .error e
      | .ok (pts, r2) =>
        let sh := wirePathOf cfg.wireMode pathMode sf w pts
        match expectSemi cn r2 with
        | .error e => .error e
        | .ok r3 => .ok (shapes + 1, insertShape L cur (layer.toNat, sh), r3)

/-- Label at location, translated from the `94` extension branch (source
lines 829-864); the terminating `skip_to_end` is done by the dispatcher
for all digit commands. -/
def handle94 (cfg : Config) (cn : String) (sf : ℚ) (layer : ℤ) (cur : ℕ)
    (lm : LayerMap) (shapes : ℕ) (L : Layout) (input : List Char) :
    Except Err (ℕ × Layout × List Char) :=
  if layer < 0 then .ok (shapes + 1, L, input)
  else
    let (text, r1) := readStr input
    match readSInteger cn r1 with
    | .error e => .error e
    | .ok (rx, r2) =>
    match readSInteger cn r2 with
    | .error e => .error e
    | .ok (ry, r3) =>
      let hr : ℚ × List Char :=
        match testSemi r3 with
        | (true, r4) => (0, r4)
        | (false, r4) => readDouble r4
      let (h, r5) := hr
      let (name, r6) := readName r5
      let l : ℕ :=
        if name ≠ "" then
          match logicalName lm name with
          | some v => v
          | none => layer.toNat
        else layer.toNat
      let sh : Shape := .text text (rnd (sf * rx)) (rnd (sf * ry)) (rnd (h / cfg.dbu))
      .ok (shapes + 1, insertShape L cur (l, sh), r6)

/-- Label in box, translated from the `95` extension branch (source lines
866-891); the box dimensions are read and discarded. -/
def handle95 (cn : String) (sf : ℚ) (layer : ℤ) (cur : ℕ) (shapes : ℕ)
    (L : Layout) (input : List Char) :
    Except Err (ℕ × Layout × List Char) :=
  if layer < 0 then .ok (shapes + 1, L, input)
  else
    let (text, r1) := readStr input
    match readSInteger cn r1 with
    | .error e => .error e
    | .ok (_, r2) =>
    match readSInteger cn r2 with
    | .error e => .error e
    | .ok (_, r3) =>
    match readSInteger cn r3 with
    | .error e => .error e
    | .ok (rx, r4) =>
    match readSInteger cn r4 with
    | .error e => .error e
    | .ok (ry, r5) =>
      let sh : Shape := .text text (rnd (sf * rx)) (rnd (sf * ry)) 0
      .ok (shapes + 1, insertShape L cur (layer.toNat, sh), r5)

/-- Transformation accumulation loop of the `C` branch (source lines
521-567).  `error ()` throws, so the token-skipping recovery code after
the two `error` calls in the source is unreachable and omitted. -/
def readTransLoop (cfg : Config) (cn : String) (sf : ℚ) :
    ℕ → CTrans → List Char → Except Err (CTrans × List Char)
  | 0, _, _ => .error ⟨"out of fuel", cn⟩
  | fuel + 1, tr, input =>
    match testSemi input with
    | (true, r) => .ok (tr, r)
    | (false, r) =>
      let r1 := skipBlanks r
      match getCh cn r1 with
      | .error e => .error e
      | .ok (ct, r2) =>
        if ct = 'M' then
          let r3 := skipBlanks r2
          match getCh cn r3 with
          | .error e => .error e
          | .ok (ct2, r4) =>
            if ct2 = 'X' then readTransLoop cfg cn sf fuel (applyMX tr) r4
            else if ct2 = 'Y' then readTransLoop cfg cn sf fuel (applyMY tr) r4
            else .error ⟨"Invalid M transformation specification", cn⟩
        else if ct = 'T' then
          match readSInteger cn r2 with
          | .error e => .error e
          | .ok (x, r3) =>
            match readSInteger cn r3 with
            | .error e => .error e
            | .ok (y, r4) =>
              readTransLoop cfg cn sf fuel (applyT tr ((x : ℚ) * sf) ((y : ℚ) * sf)) r4
        else if ct = 'R' then
          match readSInteger cn r2 with
          | .error e => .error e
          | .ok (x, r3) =>
            match readSInteger cn r3 with
            | .error e => .error e
            | .ok (y, r4) =>
              readTransLoop cfg cn sf fuel
                (if y ≠ 0 || x ≠ 0 then applyR cfg.rsqrt tr x y else tr) r4
        else .error ⟨"Invalid transformation specification", cn⟩

/-- Classified instance construction of the `C` branch (source lines
569-581): integer transform storage when the accumulated transform is an
orthogonal rotation/mirror without magnification, complex storage
otherwise; array parameters from a preceding `93`. -/
def mkInst (child : ℕ) (tr : CTrans) (sf : ℚ) (nx ny dx dy : ℤ) : Inst :=
  { child := child,
    intKind := isOrtho tr && !isMag tr,
    t := tr,
    disp := (rnd tr.disp.1, rnd tr.disp.2),
    arr := if nx > 0 || ny > 0 then
        some (rnd ((dx : ℚ) * sf), rnd ((dy : ℚ) * sf), max 1 nx, max 1 ny)
      else none }

/-- Cell instantiation, translated from the `C` branch (source lines
504-586); the `insts` counter increment and the array-parameter reset are
done by the dispatcher. -/
def handleC (cfg : Config) (fuel : ℕ) (sf : ℚ) (cur : ℕ) (st : RState)
    (input : List Char) (nx ny dx dy : ℤ) :
    Except (Err × RState) (RState × List Char) :=
  match readInteger st.cellname input with
  | .error e => .error (e, st)
  | .ok (n0, r1) =>
    let n := n0.toNat
    let st1 :=
      match assocLookup st.cellsById n with
      | some _ => { st with cRefs := st.cRefs ++ [n] }
      | none =>
        let a := addCell st.layout ("C" ++ toString n)
        { st with layout := a.1, cellsById := st.cellsById ++ [(n, a.2)],
                  cRefs := st.cRefs ++ [n] }
    let child := (assocLookup st1.cellsById n).getD 0
    match readTransLoop cfg st1.cellname sf fuel idTrans r1 with
    | .error e => .error (e, st1)
    | .ok (tr, r2) =>
      let st2 := { st1 with layout := insertInst st1.layout cur (mkInst child tr sf nx ny dx dy) }
      match expectSemi st2.cellname r2 with
      | .error e => .error (e, st2)
      | .ok r3 => .ok (st2, r3)

/-- Result of one invocation of `read_cell`.  The C++ function returns
only the non-emptiness flag; the final counters are additionally exposed
here for the specification. -/
structure RunOut where
  flag : Bool
  insts : ℕ
  shapes : ℕ
  lspecs : ℕ
  st : RState
  rest : List Char
  deriving DecidableEq, Repr

/-- The return value of `read_cell` (source line 924): non-empty iff more
than one instance, at least one shape, or at least one layer
specification. -/
def mkOut (insts shapes lspecs : ℕ) (st : RState) (rest : List Char) : RunOut :=
  ⟨decide (insts > 1 ∨ shapes > 0 ∨ lspecs > 0), insts, shapes, lspecs, st, rest⟩

/-- The `DS` branch (source lines 445-473), with the nested `read_cell`
invocation abstracted into `recur`.  The cell name is swapped to `C<n>`
before the recursion and swapped back from the saved local on normal
return; an error from the recursion propagates without the restore (the
C++ code uses two plain `std::swap` calls, no scope guard).  The ghost
fields `dsCount`/`dsIds` record the `DS` for the specification. -/
def dsBody (recur : ℚ → ℕ → RState → List Char → Except (Err × RState) RunOut)
    (sf : ℚ) (st : RState) (input : List Char) :
    Except (Err × RState) (RState × List Char) :=
  match readInteger st.cellname input with
  | .error e => .error (e, st)
  | .ok (n0, r1) =>
    let n := n0.toNat
    let dd : Except Err ((ℕ × ℕ) × List Char) :=
      match testSemi r1 with
      | (true, r2) => .ok ((1, 1), r2)
      | (false, r2) =>
        match readInteger st.cellname r2 with
        | .error e => .error e
        | .ok (denom, r3) =>
          match readInteger st.cellname r3 with
          | .error e => .error e
          | .ok (divider, r4) => .ok ((denom.toNat, divider.toNat), r4)
    match dd with
    | .error e => .error (e, st)
    | .ok ((denom, divider), r4) =>
      match expectSemi st.cellname r4 with
      | .error e => .error (e, st)
      | .ok r5 =>
        let saved := st.cellname
        let st1 := { st with cellname := "C" ++ toString n,
                             dsCount := st.dsCount + 1, dsIds := st.dsIds ++ [n] }
        let st2 :=
          match assocLookup st1.cellsById n with
          | some _ => st1
          | none =>
            let a := addCell st1.layout st1.cellname
            { st1 with layout := a.1, cellsById := st1.cellsById ++ [(n, a.2)] }
        let ci := (assocLookup st2.cellsById n).getD 0
        match recur (sf * (denom : ℚ) / (divider : ℚ)) ci st2 r5 with
        | .error p => .error p
        | .ok out => .ok ({ out.st with cellname := saved }, out.rest)

/-! ## The dispatcher (`CIFReader::read_cell`) -/

/-- Main loop of `CIFReader::read_cell` (source lines 416-920), defined
with a fuel bound on the number of loop iterations.  Parameters after the
stream are the per-invocation locals: pending array parameters
`nx ny dx dy`, the active `layer` (`-2` = never selected, `-1` = masked),
the `path_mode` override (`-1` = use `wire_mode`) and the three
counters. -/
def readCellLoop (cfg : Config) : ℕ → ℚ → ℕ → ℕ → RState → List Char →
    ℤ → ℤ → ℤ → ℤ → ℤ → ℤ → ℕ → ℕ → ℕ → Except (Err × RState) RunOut
  | 0, _, _, _, st, _, _, _, _, _, _, _, _, _, _ =>
    .error (⟨"out of fuel", st.cellname⟩, st)
  | fuel + 1, sf, level, cur, st, input0, nx, ny, dx, dy, layer, pathMode,
      insts, shapes, lspecs =>
    let input := skipBlanks input0
    match getCh st.cellname input with
    | .error e => .error (e, st)
    | .ok (c, rest) =>
      if c = ';' then
        readCellLoop cfg fuel sf level cur st rest nx ny dx dy layer pathMode insts shapes lspecs
      else if c = '(' then
        readCellLoop cfg fuel sf level cur st (skipComment rest) nx ny dx dy layer pathMode insts shapes lspecs
      else if c = 'E' then
        if level > 0 then .error (⟨"E command must be outside a cell specification", st.cellname⟩, st)
        else .ok (mkOut insts shapes lspecs st (skipBlanks rest))
      else if c = 'D' then
        let restD := skipBlanks rest
        match getCh st.cellname restD with
        | .error e => .error (e, st)
        | .ok (c2, rest2) =>
          if c2 = 'S' then
            match dsBody
                (fun sf2 ci2 st2 inp2 =>
                  readCellLoop cfg fuel sf2 (level + 1) ci2 st2 inp2 0 0 0 0 (-2) (-1) 0 0 0)
                sf st rest2 with
            | .error p => .error p
            | .ok (st', rest') =>
              readCellLoop cfg fuel sf level cur st' rest' nx ny dx dy layer pathMode insts shapes lspecs
          else if c2 = 'F' then
            if level = 0 then .error (⟨"DS command must be inside a cell specification", st.cellname⟩, st)
            else .ok (mkOut insts shapes lspecs st (skipToEnd rest2))
          else if c2 = 'D' then
            match readInteger st.cellname rest2 with
            | .error e => .error (e, st)
            | .ok (_, r3) =>
              readCellLoop cfg fuel sf level cur st (skipToEnd r3) nx ny dx dy layer pathMode insts shapes lspecs
          else .error (⟨"Invalid D sub-command", st.cellname⟩, st)
      else if c = 'C' then
        match handleC cfg fuel sf cur st rest nx ny dx dy with
        | .error p => .error p
        | .ok (st', rest') =>
          readCellLoop cfg fuel sf level cur st' rest' 0 0 0 0 layer pathMode (insts + 1) shapes lspecs
      else if c = 'L' then
        match handleL cfg st rest with
        | .error e => .error (e, st)
        | .ok (layer', st', rest') =>
          readCellLoop cfg fuel sf level cur st' rest' nx ny dx dy layer' pathMode insts shapes (lspecs + 1)
      else if c = 'B' then
        match handleB cfg st.cellname sf layer cur shapes st.layout rest with
        | .error e => .error (e, st)
        | .ok (shapes', L', rest') =>
          readCellLoop cfg fuel sf level cur { st with layout := L' } rest' nx ny dx dy layer pathMode insts shapes' lspecs
      else if c = 'P' then
        match handleP st.cellname sf layer cur shapes fuel st.layout rest with
        | .error e => .error (e, st)
        | .ok (shapes', L', rest') =>
          readCellLoop cfg fuel sf level cur { st with layout := L' } rest' nx ny dx dy layer pathMode insts shapes' lspecs
      else if c = 'R' then
        match handleR st.cellname sf layer cur shapes st.layout rest with
        | .error e => .error (e, st)
        | .ok (shapes', L', rest') =>
          readCellLoop cfg fuel sf level cur { st with layout := L' } rest' nx ny dx dy layer pathMode insts shapes' lspecs
      else if c = 'W' then
        match handleW cfg st.cellname sf pathMode layer cur shapes fuel st.layout rest with
        | .error e => .error (e, st)
        | .ok (shapes', L', rest') =>
          readCellLoop cfg fuel sf level cur { st with layout := L' } rest' nx ny dx dy layer pathMode insts shapes' lspecs
      else if isDigitC c then
        let ccDigit : Bool := match rest.head? with
          | some cc => isDigitC cc
          | none => false
        if c = '9' && rest.head? == some '3' then
          match getCh st.cellname rest with
          | .error e => .error (e, st)
          | .ok (_, r1) =>
            match readSInteger st.cellname r1 with
            | .error e => .error (e, st)
            | .ok (nx', r2) =>
            match readSInteger st.cellname r2 with
            | .error e => .error (e, st)
            | .ok (dx', r3) =>
            match readSInteger st.cellname r3 with
            | .error e => .error (e, st)
            | .ok (ny', r4) =>
            match readSInteger st.cellname r4 with
            | .error e => .error (e, st)
            | .ok (dy', r5) =>
              readCellLoop cfg fuel sf level cur st (skipToEnd r5) nx' ny' dx' dy' layer pathMode insts shapes lspecs
        else if c = '9' && rest.head? == some '4' then
          match getCh st.cellname rest with
          | .error e => .error (e, st)
          | .ok (_, r1) =>
            match handle94 cfg st.cellname sf layer cur st.layerMap shapes st.layout r1 with
            | .error e => .error (e, st)
            | .ok (shapes', L', rest') =>
              readCellLoop cfg fuel sf level cur { st with layout := L' } (skipToEnd rest') nx ny dx dy layer pathMode insts shapes' lspecs
        else if c = '9' && rest.head? == some '5' then
          match getCh st.cellname rest with
          | .error e => .error (e, st)
          | .ok (_, r1) =>
            match handle95 st.cellname sf layer cur shapes st.layout r1 with
            | .error e => .error (e, st)
            | .ok (shapes', L', rest') =>
              readCellLoop cfg fuel sf level cur { st with layout := L' } (skipToEnd rest') nx ny dx dy layer pathMode insts shapes' lspecs
        else if c = '9' && rest.head? == some '8' then
          match getCh st.cellname rest with
          | .error e => .error (e, st)
          | .ok (_, r1) =>
            match readInteger st.cellname r1 with
            | .error e => .error (e, st)
            | .ok (pm, r2) =>
              readCellLoop cfg fuel sf level cur st (skipToEnd r2) nx ny dx dy layer pm insts shapes lspecs
        else if c = '9' && !ccDigit then
          let (s, r1) := readStr rest
          let nm := uniquifyCellName st.layout s
          let st' := { st with cellname := nm, layout := renameCell st.layout cur nm }
          readCellLoop cfg fuel sf level cur st' (skipToEnd r1) nx ny dx dy layer pathMode insts shapes lspecs
        else
          readCellLoop cfg fuel sf level cur st (skipToEnd rest) nx ny dx dy layer pathMode insts shapes lspecs
      else
        readCellLoop cfg fuel sf level cur st (skipToEnd rest) nx ny dx dy layer pathMode insts shapes lspecs

/-- One invocation of `read_cell` with freshly initialised locals (source
lines 408-414). -/
def readCellFrom (cfg : Config) (fuel : ℕ) (sf : ℚ) (level cur : ℕ)
    (st : RState) (input : List Char) : Except (Err × RState) RunOut :=
  readCellLoop cfg fuel sf level cur st input 0 0 0 0 (-2) (-1) 0 0 0

/-! ## The driver (`CIFReader::do_read`) -/

/-- The used (layer, datatype) pairs present in the layout at
finalization time (source lines 961-964). -/
def seedUsed (L : Layout) : List (ℤ × ℤ) :=
  L.layers.map fun p => (p.2.layer, p.2.datatype)

/-- Result of `do_read`.  `topIdx` is the index of the synthetic top
cell; `topName` is `some` of the unique name it received when kept and
`none` when it was deleted; `topNameFresh` records that the received name
was fresh at rename time.  All three are ghost outputs. -/
structure DriveOut where
  st : RState
  flag : Bool
  insts : ℕ
  shapes : ℕ
  lspecs : ℕ
  topIdx : ℕ
  topName : Option String
  topNameFresh : Bool
  deriving DecidableEq, Repr

/-- translated from `CIFReader::do_read` (source lines 927-1033) together
with the initialisation done by `CIFReader::read` (lines 60-76):
initial scale `0.01 / dbu`, synthetic top cell, one `read_cell` at level
0, delete-or-rename of the top cell, and the deferred three-pass layer
finalization seeded from the layout's layer pairs. -/
def doRead (cfg : Config) (fuel : ℕ) (L0 : Layout) (input : List Char) :
    Except (Err × RState) DriveOut :=
  let sf : ℚ := (1 / 100) / cfg.dbu
  let a := addCell { L0 with dbuVal := cfg.dbu } ""
  let st0 : RState :=
    { cellname := "\x7bCIF top level\x7d",
      cellsById := [], newLayers := [],
      nextLayerIndex := cfg.layerMap.nextIndex,
      layerMap := cfg.layerMap,
      layout := a.1, dsCount := 0, dsIds := [], cRefs := [] }
  match readCellFrom cfg fuel sf 0 a.2 st0 input with
  | .error p => .error p
  | .ok out =>
    let keep := out.flag
    let nm := uniquifyCellName out.st.layout "CIF_TOP"
    let fresh := decide (nm ∉ namesOf out.st.layout)
    let st1 :=
      if keep then { out.st with layout := renameCell out.st.layout a.2 nm }
      else { out.st with layout := removeCell out.st.layout a.2 }
    let st2 := { st1 with cellname := "" }
    let st3 :=
      if st2.newLayers.isEmpty = false then
        let assigns := finalizeNewLayers st2.newLayers (seedUsed st2.layout)
        { st2 with
          layout := assigns.foldl (fun L p => setLayerProps L p.1 p.2) st2.layout,
          layerMap := assigns.foldl (fun m p => mapAdd m p.2 p.1) st2.layerMap }
      else st2
    .ok { st := st3, flag := out.flag, insts := out.insts, shapes := out.shapes,
          lspecs := out.lspecs, topIdx := a.2,
          topName := if keep then some nm else none,
          topNameFresh := if keep then fresh else true }

/-! ## Specification-side notions and fixtures -/

/-- Balance check for a comment body starting at nesting level `bl`: the
level stays non-negative after every character and returns to zero at the
end (this formalizes "balanced parentheses" of the specification). -/
def balAux (bl : ℤ) : List Char → Bool
  | [] => bl == 0
  | c :: cs =>
    let bl' := if c = '(' then bl + 1 else if c = ')' then bl - 1 else bl
    decide (0 ≤ bl') && balAux bl' cs

/-- Default example configuration: dbu 0.001 (scale factor 10), wire mode
0, layer creation on, empty layer map.  The square-root oracle is the
constant 1, which agrees with the library square root at every point
where the examples below query it (they only query it at 1). -/
def cfgEx : Config := { rsqrt := fun _ => 1 }

/-- Example host layout: one cell `top` with index 0. -/
def layEx : Layout := (addCell emptyLayout "top").1

/-- Example reader state filling cell 0 of `layEx`. -/
def stEx : RState := { cellname := "T", layout := layEx }

/-- Exact decimal value of a digit run (specification side, no
wrapping). -/
def valD (ds : List Char) : ℤ :=
  ds.foldl (fun a c => a * 10 + ((c.toNat : ℤ) - 48)) 0

/-- Well-formedness of the reader's cell bookkeeping, relative to the
index `top` of the driver's synthetic top cell: cell indices are below
the allocator and duplicate-free, the top cell exists, the values of
`cellsById` are duplicate-free valid non-top cells, every id never
defined by `DS` still owns its pristine `C<id>` cell, and every id
referenced by `C` has an entry. -/
def MapInv (top : ℕ) (st : RState) : Prop :=
  (∀ c ∈ st.layout.cells, c.idx < st.layout.nextCell) ∧
  (st.layout.cells.map CifCell.idx).Nodup ∧
  top < st.layout.nextCell ∧
  (∃ c ∈ st.layout.cells, c.idx = top) ∧
  (st.cellsById.map Prod.fst).Nodup ∧
  (st.cellsById.map Prod.snd).Nodup ∧
  (∀ p ∈ st.cellsById, p.2 ≠ top ∧ p.2 < st.layout.nextCell ∧
    ∃ c ∈ st.layout.cells, c.idx = p.2) ∧
  (∀ p ∈ st.cellsById, p.1 ∉ st.dsIds →
    ∃ c ∈ st.layout.cells, c.idx = p.2 ∧ c.name = "C" ++ toString p.1 ∧
      c.shapes = [] ∧ c.insts = []) ∧
  (∀ n ∈ st.cRefs, ∃ p ∈ st.cellsById, p.1 = n)

/-- The cell currently being filled is legitimate: allocated, and either
the top cell or the cell of an id that `DS` has (started to) define. -/
def CurOK (top cur : ℕ) (st : RState) : Prop :=
  cur < st.layout.nextCell ∧
  (cur = top ∨ ∃ n, n ∈ st.dsIds ∧ ∃ p ∈ st.cellsById, p.1 = n ∧ p.2 = cur)

/-- Net effect of a successful `C` command on the reader state (source
lines 504-586), as established by `handleC_effect`: the referenced id is
recorded, a fresh `C<n>` cell is allocated when the id is new, and one
instance is inserted into the current cell. -/
def CStep (cur : ℕ) (st st1 : RState) : Prop :=
  ∃ n inst,
    st1.cellname = st.cellname ∧ st1.newLayers = st.newLayers ∧
    st1.nextLayerIndex = st.nextLayerIndex ∧ st1.layerMap = st.layerMap ∧
    st1.dsCount = st.dsCount ∧ st1.dsIds = st.dsIds ∧
    st1.cRefs = st.cRefs ++ [n] ∧
    (((assocLookup st.cellsById n).isSome ∧ st1.cellsById = st.cellsById ∧
        st1.layout = insertInst st.layout cur inst) ∨
      (assocLookup st.cellsById n = none ∧
        st1.cellsById = st.cellsById ++ [(n, st.layout.nextCell)] ∧
        st1.layout = insertInst (addCell st.layout ("C" ++ toString n)).1 cur inst))

/-- Net effect of the `DS` prologue on the reader state (source lines
445-467), as established by `dsBody_effect`: the id is recorded as
defined, and a fresh `C<n>` cell is allocated only when the id has no
cell yet (a later `DS` reuses the cell a `C` reference created). -/
def DStep (n : ℕ) (st st2 : RState) : Prop :=
  st2.cellname = "C" ++ toString n ∧
  st2.dsCount = st.dsCount + 1 ∧ st2.dsIds = st.dsIds ++ [n] ∧
  st2.cRefs = st.cRefs ∧ st2.newLayers = st.newLayers ∧
  st2.nextLayerIndex = st.nextLayerIndex ∧ st2.layerMap = st.layerMap ∧
  (((assocLookup st.cellsById n).isSome ∧ st2.cellsById = st.cellsById ∧
      st2.layout = st.layout) ∨
    (assocLookup st.cellsById n = none ∧
      st2.cellsById = st.cellsById ++ [(n, st.layout.nextCell)] ∧
      st2.layout = (addCell st.layout ("C" ++ toString n)).1))

/-- Monotone summary of any dispatcher step: the `DS` count never
decreases, the id bookkeeping only grows, the cell allocator is monotone,
and cells are created exactly in lockstep with `cellsById` entries. -/
def StepRel (st st1 : RState) : Prop :=
  st.dsCount ≤ st1.dsCount ∧
  (∃ l, st1.cellsById = st.cellsById ++ l) ∧
  (∃ l, st1.dsIds = st.dsIds ++ l) ∧
  st.layout.nextCell ≤ st1.layout.nextCell ∧
  st1.layout.cells.length + st.cellsById.length
    = st.layout.cells.length + st1.cellsById.length

/-- Conclusion of the master induction over `readCellLoop`: the
bookkeeping invariant is preserved, the state grows monotonically, the
instance counter is monotone, and a run that processes no `C` and no
`DS` command leaves the cell list (up to shape/name updates) intact. -/
def MasterOut (top i : ℕ) (st : RState) (out : RunOut) : Prop :=
  MapInv top out.st ∧ StepRel st out.st ∧ i ≤ out.insts ∧
  (out.insts = i ∧ out.st.dsCount = st.dsCount →
    out.st.layout.cells.map CifCell.idx = st.layout.cells.map CifCell.idx)

/-! # Theorems -/

/-! ## C3: integer overflow detection -/

/-- Claim C3 states that `read_integer` fails with the overflow error on
every digit sequence whose value exceeds `2^31 - 1` and additionally
consumes the remaining digits.  The code is off by a boundary: the guard
`i > INT_MAX / 10` lets the values `2^31` and `2^31 + 1` through, so
`"2147483648"` is accepted without error and wraps to `-2^31` (first
conjunct), while values from `2^31 + 2` on are caught (second conjunct);
the maximum itself parses exactly (third conjunct).  The digit-consuming
recovery code is unreachable because the error call throws. -/
theorem claim_C3 :
    readIntegerDigits "" ("2147483648".toList) = .ok (-2147483648, []) ∧
    readIntegerDigits "" ("2147483650".toList) = .error ⟨"Integer overflow", ""⟩ ∧
    readIntegerDigits "" ("2147483647".toList) = .ok (2147483647, []) := by
  decide

/-! ## C2: box corner coordinates -/

/-- Claim C2 states that a rotated `B` box is centred at the scaled
`(x·sf, y·sf)`.  Evaluating the `B` branch at `B 2 2 100 100 0 1` with
`sf = 10` (the oracle `fun _ => 1` agrees with the library square root at
the only queried point `0² + 1² = 1`) shows that the emitted polygon is
the square with corners `(110, 90), (90, 90), (90, 110), (110, 110)`,
centred at the unscaled `(100, 100)`: the first emitted corner differs
from the claimed `(x·sf - xw - xh, y·sf - yw - yh) = (1010, 990)`.  The
`sf` factor is applied to the half-width/height vectors but omitted on
the centre in the rotated branch (source line 696), while the
axis-aligned branch scales the centre. -/
theorem claim_C2 :
    ∃ L, handleB cfgEx "" 10 0 0 0 layEx (" 2 2 100 100 0 1;".toList) = .ok (1, L, []) ∧
      shapesOf L 0 = [(0, Shape.poly [(110, 90), (90, 90), (90, 110), (110, 110)])] ∧
      ((110 : ℤ), (90 : ℤ)) ≠ ((1010 : ℤ), (990 : ℤ)) := by
  exact ⟨_, rfl, by decide, by decide⟩

/-! ## C1: wire end-cap selection -/

/-- Claim C1 asserts the mapping `wire_mode = 0 → flush`,
`1 → round`, `2 → square` when no `98` override is active.  Running the
dispatcher with `wire_mode = 0` on `L A; W 2 0 0 10 0; E` (scale 10)
yields a square-ended path with begin/end extensions `10 = rnd (sf·w/2)`,
not the flush path (extensions `0`) the claim demands. -/
theorem claim_C1_counterexample :
    ∃ out, readCellFrom cfgEx 20 10 0 0 stEx ("L A;W 2 0 0 10 0;E".toList) = .ok out ∧
      shapesOf out.st.layout 0 = [(0, Shape.path [(0, 0), (100, 0)] 20 10 10 false)] ∧
      Shape.path [(0, 0), (100, 0)] 20 10 10 false ≠
        Shape.path [(0, 0), (100, 0)] 20 0 0 false := by
  exact ⟨_, rfl, by decide, by decide⟩

/-- Claim C1 as amended: the `W` end-cap policy gives `path_mode ≥ 0`
precedence with `0 → flush`, `1 → round`, anything else `→ square`; with
no override (`path_mode < 0`) the fallback is `wire_mode = 1 → flush`,
`wire_mode = 2 → round` and square caps for `wire_mode = 0` or any other
value.  Flush caps are `(0, 0)` without the round flag; round and square
caps are `rnd (sf·w/2)` with and without the round flag. -/
theorem claim_C1 (wireMode : ℕ) (pathMode : ℤ) (sf : ℚ) (w : ℤ)
    (pts : List (ℤ × ℤ)) :
    wirePathOf wireMode pathMode sf w pts =
      (if 0 ≤ pathMode then
        if pathMode = 0 then Shape.path pts (rnd (sf * w)) 0 0 false
        else if pathMode = 1 then
          Shape.path pts (rnd (sf * w)) (rnd (sf * w / 2)) (rnd (sf * w / 2)) true
        else Shape.path pts (rnd (sf * w)) (rnd (sf * w / 2)) (rnd (sf * w / 2)) false
      else
        if wireMode = 1 then Shape.path pts (rnd (sf * w)) 0 0 false
        else if wireMode = 2 then
          Shape.path pts (rnd (sf * w)) (rnd (sf * w / 2)) (rnd (sf * w / 2)) true
        else Shape.path pts (rnd (sf * w)) (rnd (sf * w / 2)) (rnd (sf * w / 2)) false) := by
  unfold wirePathOf
  rcases lt_trichotomy pathMode 0 with h | h | h
  · have h0 : ¬ pathMode = 0 := by omega
    have h1 : ¬ pathMode = 1 := by omega
    have h2 : ¬ 0 ≤ pathMode := by omega
    by_cases hw1 : wireMode = 1 <;> by_cases hw2 : wireMode = 2 <;>
      simp [h, h0, h1, h2, hw1, hw2]
  · simp [h]
  · have h0 : ¬ pathMode = 0 := by omega
    have hneg : ¬ pathMode < 0 := by omega
    have h2 : 0 ≤ pathMode := by omega
    by_cases h1 : pathMode = 1 <;> simp [h0, h1, h2, hneg]

/-! ## C6: cell-name save/restore around `DS` -/

/-- Claim C6 asserts that `cellname` is restored on every exit path of a
`DS` recursion, including error propagation.  On the input `DS 1;` the
nested `read_cell` hits the end of the stream and throws; the reader
state at propagation still carries the inner name `C1`, not the outer
`T`: the two plain `std::swap` calls are not exception-safe. -/
theorem claim_C6_counterexample :
    ∃ e st1, readCellFrom cfgEx 20 10 0 0 stEx ("DS 1;".toList) = .error (e, st1) ∧
      st1.cellname = "C1" ∧ stEx.cellname = "T" ∧ e.cellname = "C1" := by
  exact ⟨_, _, rfl, by decide, by decide, by decide⟩

/-- Claim C6 as amended: for every `DS` command whose nested `read_cell`
invocation returns normally, the reader's `cellname` is restored to its
value from before the `DS` (the restore happens whatever the nested read
did to the field, because the saved outer name is kept in a local).  This
holds for every recursion implementation `recur`. -/
theorem claim_C6 (recur : ℚ → ℕ → RState → List Char → Except (Err × RState) RunOut)
    (sf : ℚ) (st : RState) (input : List Char) (st1 : RState) (rest : List Char)
    (h : dsBody recur sf st input = .ok (st1, rest)) :
    st1.cellname = st.cellname := by
  unfold dsBody at h
  cases hri : readInteger st.cellname input with
  | error e => rw [hri] at h; cases h
  | ok v =>
    obtain ⟨n0, r1⟩ := v
    rw [hri] at h
    dsimp only at h
    cases hdd : (match testSemi r1 with
      | (true, r2) => Except.ok ((1, 1), r2)
      | (false, r2) =>
        match readInteger st.cellname r2 with
        | Except.error e => Except.error e
        | Except.ok (denom, r3) =>
          match readInteger st.cellname r3 with
          | Except.error e => Except.error e
          | Except.ok (divider, r4) =>
            Except.ok ((denom.toNat, divider.toNat), r4) :
        Except Err ((ℕ × ℕ) × List Char)) with
    | error e => rw [hdd] at h; cases h
    | ok v2 =>
      obtain ⟨⟨denom, divider⟩, r4⟩ := v2
      rw [hdd] at h
      dsimp only at h
      cases hes : expectSemi st.cellname r4 with
      | error e => rw [hes] at h; cases h
      | ok r5 =>
        rw [hes] at h
        dsimp only at h
        split at h
        · cases h
        · cases h
          rfl

/-- Witness for the amended C6 at a concrete `DS 1;` header with a stub
recursion. -/
theorem claim_C6_witness :
    ∃ st1 rest,
      dsBody (fun _ _ st inp => .ok ⟨true, 0, 0, 0, st, inp⟩) 1 stEx (" 1;".toList) =
        .ok (st1, rest) ∧ st1.cellname = "T" := by
  obtain ⟨st1, rest, he⟩ :
      ∃ st1 rest, dsBody (fun _ _ st inp => .ok ⟨true, 0, 0, 0, st, inp⟩) 1 stEx
        (" 1;".toList) = .ok (st1, rest) := ⟨_, _, rfl⟩
  exact ⟨st1, rest, he, claim_C6 _ _ _ _ _ _ he⟩

/-! ## C5: deferred layer finalization -/

/-- Pass 1 of the source equals the specification pass instantiated with
the plain-integer parser. -/
theorem pass1_eq_spec (nl : List (String × ℕ)) (used : List (ℤ × ℤ)) :
    finalizePass1 nl used = specPass specParsePlain nl used := by
  induction nl generalizing used with
  | nil => rfl
  | cons p rest ih =>
    obtain ⟨nm, idx⟩ := p
    simp only [finalizePass1, specPass, specParsePlain]
    cases hx : extractPlainLayer nm.toList with
    | none => simp only [hx, Option.map_none', ih]
    | some l =>
      simp only [hx, Option.map_some']
      split <;> simp_all [ih]

/-- Pass 2 of the source equals the specification pass instantiated with
the LxDy parser. -/
theorem pass2_eq_spec (nl : List (String × ℕ)) (used : List (ℤ × ℤ)) :
    finalizePass2 nl used = specPass specParseLD nl used := by
  induction nl generalizing used with
  | nil => rfl
  | cons p rest ih =>
    obtain ⟨nm, idx⟩ := p
    simp only [finalizePass2, specPass, specParseLD]
    cases hx : extractLD nm.toList with
    | none => simp only [hx, Option.map_none', ih]
    | some v =>
      obtain ⟨l, d, n⟩ := v
      simp only [hx, Option.map_some']
      split <;> simp_all [ih]

/-- Claim C5: after the whole file is read, the pending `new_layers`
entries are finalized in exactly the three passes the specification
describes — plain-integer names to `(N, 0)` first, then LxDy names to
`(L, D)` with the trailing tag as name, then name-only properties — with
every pass skipping entries whose (layer, datatype) pair is already used
and every successful assignment extending the used set.  Formally the
source finalization coincides with the specification-side three-pass
description for every pending map and every seed of used pairs (`doRead`
seeds it with the pairs present in the layout, `seedUsed`). -/
theorem claim_C5 (nl : List (String × ℕ)) (used : List (ℤ × ℤ)) :
    finalizeNewLayers nl used = specFinalize nl used := by
  simp only [finalizeNewLayers, specFinalize, pass1_eq_spec, pass2_eq_spec,
    finalizePass3]

/-! ## C8: comments -/

/-- The comment loop run at level `bl ≥ 0` over a body that keeps the
level non-negative and returns it to zero stops exactly after the
matching closing parenthesis. -/
theorem skipCommentAux_balanced (s : List Char) :
    ∀ (bl : ℤ) (rest : List Char), 0 ≤ bl → balAux bl s = true →
      skipCommentAux bl (s ++ ')' :: rest) = rest := by
  induction s with
  | nil =>
    intro bl rest _ hb
    have h0 : bl = 0 := by simpa [balAux] using hb
    subst h0
    simp [skipCommentAux]
  | cons c cs ih =>
    intro bl rest hbl hb
    simp only [balAux, Bool.and_eq_true, decide_eq_true_eq] at hb
    obtain ⟨h1, h2⟩ := hb
    rw [List.cons_append, skipCommentAux]
    by_cases hc : c = ')'
    · subst hc
      simp only [show ((')' : Char) = '(') = False by simp, if_false, eq_self_iff_true,
        if_true] at h1 h2 ⊢
      have hbgt : bl > 0 := by omega
      rw [if_neg (by simp [hbgt])]
      exact ih (bl - 1) rest (by omega) h2
    · by_cases ho : c = '('
      · subst ho
        simp only [eq_self_iff_true, if_true] at h1 h2 ⊢
        rw [if_neg (by simp)]
        exact ih (bl + 1) rest (by omega) h2
      · simp only [if_neg ho, if_neg hc] at h1 h2 ⊢
        rw [if_neg (by simp [hc])]
        exact ih bl rest hbl h2

/-- Claim C8: `skip_comment`, invoked after the opening parenthesis was
consumed, advances through arbitrarily deeply nested balanced
parentheses and stops exactly after the matching closing one (first
conjunct); consequently a parenthesized comment with balanced body
prepended to any input is a no-op for the dispatcher loop, at any point
of any cell and for any reader state (second conjunct), and the whole
read of `(...)X` produces exactly the layout of `X` (third conjunct). -/
theorem claim_C8 :
    (∀ s rest, balAux 0 s = true → skipComment (s ++ ')' :: rest) = rest) ∧
    (∀ cfg fuel sf level cur st X s nx ny dx dy layer pm i sh ls,
      balAux 0 s = true →
      readCellLoop cfg (fuel + 1) sf level cur st ('(' :: (s ++ ')' :: X))
          nx ny dx dy layer pm i sh ls =
        readCellLoop cfg fuel sf level cur st X nx ny dx dy layer pm i sh ls) ∧
    (∀ cfg fuel L0 X s, balAux 0 s = true →
      doRead cfg (fuel + 1) L0 ('(' :: (s ++ ')' :: X)) = doRead cfg fuel L0 X) := by
  have hsc : ∀ s rest, balAux 0 s = true → skipComment (s ++ ')' :: rest) = rest :=
    fun s rest hb => skipCommentAux_balanced s 0 rest le_rfl hb
  have hloop : ∀ cfg fuel sf level cur st X s
      (nx ny dx dy layer pm : ℤ) (i sh ls : ℕ), balAux 0 s = true →
      readCellLoop cfg (fuel + 1) sf level cur st ('(' :: (s ++ ')' :: X))
          nx ny dx dy layer pm i sh ls =
        readCellLoop cfg fuel sf level cur st X nx ny dx dy layer pm i sh ls := by
    intro cfg fuel sf level cur st X s nx ny dx dy layer pm i sh ls hb
    rw [readCellLoop]
    have hblank : skipBlanks ('(' :: (s ++ ')' :: X)) = '(' :: (s ++ ')' :: X) := by
      rw [skipBlanks]
      simp [blankStop]
    rw [hblank]
    simp only [getCh]
    rw [if_neg (by decide : ¬ ('(' : Char) = ';')]
    simp only [eq_self_iff_true, if_true]
    rw [hsc s X hb]
  refine ⟨hsc, hloop, ?_⟩
  intro cfg fuel L0 X s hb
  have key : ∀ (sf : ℚ) (cur : ℕ) (st2 : RState),
      readCellLoop cfg (fuel + 1) sf 0 cur st2 ('(' :: (s ++ ')' :: X))
          0 0 0 0 (-2) (-1) 0 0 0 =
        readCellLoop cfg fuel sf 0 cur st2 X 0 0 0 0 (-2) (-1) 0 0 0 :=
    fun sf cur st2 => hloop cfg fuel sf 0 cur st2 X s _ _ _ _ _ _ _ _ _ hb
  simp only [doRead, readCellFrom]
  rw [key]

/-- Witness for C8: a nested comment body `ab(c)`, its skip, and a
whole-read equality at a concrete input. -/
theorem claim_C8_witness :
    balAux 0 ("ab(c)".toList) = true ∧
    skipComment ("ab(c)".toList ++ ')' :: "E;".toList) = "E;".toList ∧
    doRead cfgEx 5 emptyLayout ('(' :: ("ab(c)".toList ++ ')' :: "E".toList)) =
      doRead cfgEx 4 emptyLayout ("E".toList) :=
  ⟨by decide, claim_C8.1 _ _ (by decide),
    claim_C8.2.2 cfgEx 4 emptyLayout _ _ (by decide)⟩

/-! ## C10: the shape counter counts discarded shapes -/

/-- Claim C10: every shape command (`B`, `P`, `R`, `W`, `94`, `95`)
increments the `shapes` counter even when the shape is discarded because
no layer was selected (`-2`) or the active layer is masked (`-1`): the
six handler branches return `shapes + 1` with the layout untouched
whenever `layer < 0` (first six conjuncts).  Consequently a top-level
input consisting only of such ignored shape commands still counts as
non-empty and the synthetic top cell is retained under the name
`CIF_TOP` even though it contains no geometry (last conjunct, for the
input `B 1 1 0 0; E` with no `L` command). -/
theorem claim_C10 :
    (∀ cfg cn sf layer cur sh L input, layer < 0 →
        handleB cfg cn sf layer cur sh L input = .ok (sh + 1, L, skipToEnd input)) ∧
    (∀ cn sf layer cur sh fuel L input, layer < 0 →
        handleP cn sf layer cur sh fuel L input = .ok (sh + 1, L, skipToEnd input)) ∧
    (∀ cn sf layer cur sh L input, layer < 0 →
        handleR cn sf layer cur sh L input = .ok (sh + 1, L, skipToEnd input)) ∧
    (∀ cfg cn sf pm layer cur sh fuel L input, layer < 0 →
        handleW cfg cn sf pm layer cur sh fuel L input = .ok (sh + 1, L, skipToEnd input)) ∧
    (∀ cfg cn sf layer cur lm sh L input, layer < 0 →
        handle94 cfg cn sf layer cur lm sh L input = .ok (sh + 1, L, input)) ∧
    (∀ cn sf layer cur sh L input, layer < 0 →
        handle95 cn sf layer cur sh L input = .ok (sh + 1, L, input)) ∧
    (∃ out, doRead cfgEx 10 emptyLayout ("B 1 1 0 0;E".toList) = .ok out ∧
      out.st.layout.cells = [{ idx := 0, name := "CIF_TOP", shapes := [], insts := [] }] ∧
      out.flag = true ∧ out.shapes = 1 ∧ out.topName = some "CIF_TOP") := by
  refine ⟨?_, ?_, ?_, ?_, ?_, ?_, ⟨_, rfl, by decide, by decide, by decide, by decide⟩⟩
  · intro cfg cn sf layer cur sh L input h
    simp [handleB, h]
  · intro cn sf layer cur sh fuel L input h
    simp [handleP, h]
  · intro cn sf layer cur sh L input h
    simp [handleR, h]
  · intro cfg cn sf pm layer cur sh fuel L input h
    simp [handleW, h]
  · intro cfg cn sf layer cur lm sh L input h
    simp [handle94, h]
  · intro cn sf layer cur sh L input h
    simp [handle95, h]

/-- Witness for C10 at `layer = -2` (never selected) and `layer = -1`
(masked). -/
theorem claim_C10_witness :
    handleB cfgEx "" 1 (-2) 0 0 emptyLayout (";".toList) = .ok (1, emptyLayout, []) ∧
    handle95 "" 1 (-1) 0 4 emptyLayout ([]) = .ok (5, emptyLayout, []) :=
  ⟨claim_C10.1 cfgEx "" 1 (-2) 0 0 emptyLayout _ (by decide),
    claim_C10.2.2.2.2.2.1 "" 1 (-1) 0 4 emptyLayout _ (by decide)⟩

/-! ## Parsing lemmas for symbolic inputs -/

theorem skipBlanks_stop {c : Char} (h : blankStop c = true) (l : List Char) :
    skipBlanks (c :: l) = c :: l := by rw [skipBlanks, if_pos h]

theorem skipBlanks_skip {c : Char} (h : blankStop c = false) (l : List Char) :
    skipBlanks (c :: l) = skipBlanks l := by rw [skipBlanks, if_neg (by simp [h])]

theorem skipSep_stop {c : Char} (h : sepStop c = true) (l : List Char) :
    skipSep (c :: l) = c :: l := by rw [skipSep, if_pos h]

theorem skipSep_skip {c : Char} (h : sepStop c = false) (l : List Char) :
    skipSep (c :: l) = skipSep l := by rw [skipSep, if_neg (by simp [h])]

/-- Bounds of a decimal digit character. -/
theorem digit_bounds {d : Char} (h : isDigitC d = true) :
    (48 : ℤ) ≤ (d.toNat : ℤ) ∧ (d.toNat : ℤ) ≤ 57 := by
  simp only [isDigitC, Bool.and_eq_true, decide_eq_true_eq] at h
  obtain ⟨h1, h2⟩ := h
  simp only [Char.le_def, UInt32.le_def, BitVec.le_def] at h1 h2
  constructor
  · exact_mod_cast show (48 : ℕ) ≤ d.toNat by
      simpa [Char.toNat, UInt32.toNat] using h1
  · exact_mod_cast show d.toNat ≤ 57 by
      simpa [Char.toNat, UInt32.toNat] using h2

/-- The digit accumulator never decreases. -/
theorem foldl_digits_ge :
    ∀ (ds : List Char) (a : ℤ), ds.all isDigitC = true → 0 ≤ a →
      a ≤ ds.foldl (fun x c => x * 10 + ((c.toNat : ℤ) - 48)) a := by
  intro ds
  induction ds with
  | nil => intro a _ _; exact le_rfl
  | cons d ds ih =>
    intro a hall ha
    simp only [List.all_cons, Bool.and_eq_true] at hall
    have hd := digit_bounds hall.1
    simp only [List.foldl_cons]
    have hstep : a ≤ a * 10 + ((d.toNat : ℤ) - 48) := by linarith [hd.1]
    exact le_trans hstep (ih _ hall.2 (by linarith [hd.1]))

theorem wrap32_id {z : ℤ} (h1 : -(2 ^ 31) ≤ z) (h2 : z < 2 ^ 31) : wrap32 z = z := by
  unfold wrap32
  omega

/-- The digit loop of `read_integer_digits` computes the exact decimal
value whenever it stays within the `int` range and the following
character is not a digit. -/
theorem riLoop_ok (cn : String) :
    ∀ (ds : List Char) (a : ℤ) (rest : List Char), ds.all isDigitC = true → 0 ≤ a →
      ds.foldl (fun x c => x * 10 + ((c.toNat : ℤ) - 48)) a ≤ intMax →
      (∀ c, rest.head? = some c → isDigitC c = false) →
      riLoop cn a (ds ++ rest) =
        .ok (ds.foldl (fun x c => x * 10 + ((c.toNat : ℤ) - 48)) a, rest) := by
  intro ds
  induction ds with
  | nil =>
    intro a rest _ _ _ hrest
    cases rest with
    | nil => simp [riLoop]
    | cons c cs =>
      simp only [List.nil_append, List.foldl_nil]
      rw [riLoop, if_neg (by simp [hrest c rfl])]
  | cons d ds ih =>
    intro a rest hall ha hle hrest
    simp only [List.all_cons, Bool.and_eq_true] at hall
    have hd := digit_bounds hall.1
    simp only [List.cons_append, List.foldl_cons] at hle ⊢
    have hstep0 : (0 : ℤ) ≤ a * 10 + ((d.toNat : ℤ) - 48) := by linarith [hd.1]
    have hstepmax : a * 10 + ((d.toNat : ℤ) - 48) ≤ intMax :=
      le_trans (foldl_digits_ge ds _ hall.2 hstep0) hle
    have hcap : ¬ a > intMax / 10 := by
      have h10 : a * 10 ≤ intMax := by linarith [hd.1]
      simp only [intMax] at h10 ⊢
      omega
    rw [riLoop, if_pos hall.1, if_neg hcap]
    have e1 : wrap32 (a * 10) = a * 10 := by
      refine wrap32_id (by linarith) ?_
      have : a * 10 ≤ intMax := by linarith [hd.1]
      simp only [intMax] at this
      omega
    rw [e1]
    have e2 : wrap32 (a * 10 + ((d.toNat : ℤ) - 48)) = a * 10 + ((d.toNat : ℤ) - 48) := by
      refine wrap32_id (by linarith) ?_
      simp only [intMax] at hstepmax
      omega
    rw [e2]
    exact ih _ rest hall.2 hstep0 hle hrest

/-- Correctness of `read_integer_digits` on a digit run within range. -/
theorem readIntegerDigits_ok (cn : String) (ds rest : List Char)
    (hne : ds ≠ []) (hall : ds.all isDigitC = true) (hle : valD ds ≤ intMax)
    (hrest : ∀ c, rest.head? = some c → isDigitC c = false) :
    readIntegerDigits cn (ds ++ rest) = .ok (valD ds, rest) := by
  cases ds with
  | nil => exact absurd rfl hne
  | cons d ds' =>
    have hd : isDigitC d = true := by
      simp only [List.all_cons, Bool.and_eq_true] at hall
      exact hall.1
    simp only [List.cons_append, readIntegerDigits, if_pos hd]
    rw [show d :: (ds' ++ rest) = (d :: ds') ++ rest from rfl]
    exact riLoop_ok cn (d :: ds') 0 rest hall le_rfl hle hrest

/-- A digit is not a minus sign. -/
theorem digit_ne_dash {d : Char} (h : isDigitC d = true) : d ≠ '-' := by
  intro e
  subst e
  simp [isDigitC] at h

/-- Correctness of `read_sinteger` on a blank, an optional minus sign and
a digit run within range. -/
theorem readSInteger_ok (cn : String) (sg : Bool) (ds rest : List Char)
    (hne : ds ≠ []) (hall : ds.all isDigitC = true) (hle : valD ds ≤ intMax)
    (hrest : ∀ c, rest.head? = some c → isDigitC c = false) :
    readSInteger cn (' ' :: ((cond sg ['-'] []) ++ (ds ++ rest))) =
      .ok (cond sg (-valD ds) (valD ds), rest) := by
  unfold readSInteger
  rw [skipSep_skip (by decide)]
  cases sg with
  | false =>
    simp only [cond_false, List.nil_append]
    cases ds with
    | nil => exact absurd rfl hne
    | cons d ds' =>
      have hd : isDigitC d = true := by
        simp only [List.all_cons, Bool.and_eq_true] at hall
        exact hall.1
      rw [List.cons_append, skipSep_stop (by simp [sepStop, hd])]
      split
      · rename_i cs heq
        injection heq with h1 _
        exact absurd h1 (digit_ne_dash hd)
      · rw [show d :: (ds' ++ rest) = (d :: ds') ++ rest from rfl]
        exact readIntegerDigits_ok cn (d :: ds') rest hne hall hle hrest
  | true =>
    simp only [cond_true, List.cons_append, List.nil_append]
    rw [skipSep_stop (by decide)]
    show (match readIntegerDigits cn (ds ++ rest) with
      | Except.ok (i, r) => Except.ok (-i, r)
      | Except.error e => Except.error e) = Except.ok (-valD ds, rest)
    rw [readIntegerDigits_ok cn ds rest hne hall hle hrest]

theorem testSemi_semi (l : List Char) : testSemi (';' :: l) = (true, ';' :: l) := by
  simp [testSemi, skipBlanks_stop (show blankStop ';' = true by decide)]

theorem expectSemi_semi (cn : String) (l : List Char) :
    expectSemi cn (';' :: l) = .ok l := by
  simp only [expectSemi, testSemi_semi, getCh]
  rfl

/-! ## C9: cell instances -/

/-- The transform accumulation loop on the token list `T x y ;` of a
`C n T x y ;` command: one scaled translation, stopping in front of the
semicolon. -/
theorem readTransLoop_T (cfg : Config) (cn : String) (sf : ℚ) (f : ℕ)
    (sgx sgy : Bool) (xds yds rest : List Char)
    (hxne : xds ≠ []) (hxall : xds.all isDigitC = true) (hxle : valD xds ≤ intMax)
    (hyne : yds ≠ []) (hyall : yds.all isDigitC = true) (hyle : valD yds ≤ intMax) :
    readTransLoop cfg cn sf (f + 2) idTrans
        (' ' :: ('T' :: (' ' :: ((cond sgx ['-'] []) ++ (xds ++
          (' ' :: ((cond sgy ['-'] []) ++ (yds ++ (';' :: rest))))))))) =
      .ok (applyT idTrans ((cond sgx (-valD xds) (valD xds)) * sf)
        ((cond sgy (-valD yds) (valD yds)) * sf), ';' :: rest) := by
  have hts : testSemi (' ' :: ('T' :: (' ' :: ((cond sgx ['-'] []) ++ (xds ++
      (' ' :: ((cond sgy ['-'] []) ++ (yds ++ (';' :: rest))))))))) =
      (false, 'T' :: (' ' :: ((cond sgx ['-'] []) ++ (xds ++
        (' ' :: ((cond sgy ['-'] []) ++ (yds ++ (';' :: rest)))))))) := by
    simp [testSemi, skipBlanks_skip (show blankStop ' ' = false by decide),
      skipBlanks_stop (show blankStop 'T' = true by decide)]
  rw [show f + 2 = (f + 1) + 1 from rfl, readTransLoop, hts]
  simp only [skipBlanks_stop (show blankStop 'T' = true by decide), getCh]
  rw [if_neg (by decide : ¬ ('T' : Char) = 'M')]
  simp only [eq_self_iff_true, if_true]
  rw [readSInteger_ok cn sgx xds
        (' ' :: ((cond sgy ['-'] []) ++ (yds ++ (';' :: rest))))
        hxne hxall hxle (fun c hc => by cases hc; decide)]
  dsimp only
  rw [readSInteger_ok cn sgy yds (';' :: rest)
        hyne hyall hyle (fun c hc => by cases hc; decide)]
  dsimp only
  rw [readTransLoop, testSemi_semi]

theorem find?_append_left {α} (p : α → Bool) (l1 l2 : List α)
    (h : (l1.find? p).isSome) : (l1 ++ l2).find? p = l1.find? p := by
  induction l1 with
  | nil => simp at h
  | cons x xs ih =>
    by_cases hx : p x = true
    · simp [List.find?_cons_of_pos, hx]
    · have hx' : p x = false := by simpa using hx
      rw [List.cons_append, List.find?_cons_of_neg _ (by simp [hx']),
        List.find?_cons_of_neg _ (by simp [hx'])]
      rw [List.find?_cons_of_neg _ (by simp [hx'])] at h
      exact ih h

/-- Updating the first matching element relocates `find?` through the
update when the predicate is preserved. -/
theorem find?_updFirst {α} (p : α → Bool) (f : α → α) (l : List α)
    (hp : ∀ a, p a = true → p (f a) = true)
    (h : (l.find? p).isSome) :
    (updFirst p f l).find? p = (l.find? p).map f := by
  induction l with
  | nil => simp at h
  | cons x xs ih =>
    by_cases hx : p x = true
    · rw [updFirst, if_pos hx, List.find?_cons_of_pos _ (hp x hx),
        List.find?_cons_of_pos _ hx]
      rfl
    · have hx' : p x = false := by simpa using hx
      rw [updFirst, if_neg (by simp [hx']), List.find?_cons_of_neg _ (by simp [hx']),
        List.find?_cons_of_neg _ (by simp [hx'])]
      rw [List.find?_cons_of_neg _ (by simp [hx'])] at h
      exact ih h

theorem getCell_addCell {L : Layout} {j : ℕ} (nm : String)
    (h : (getCell L j).isSome) : getCell (addCell L nm).1 j = getCell L j := by
  simp only [getCell, addCell] at h ⊢
  exact find?_append_left _ _ _ h

theorem instsOf_insertInst {L : Layout} {j : ℕ} (i : Inst)
    (h : (getCell L j).isSome) :
    instsOf (insertInst L j i) j = instsOf L j ++ [i] := by
  obtain ⟨c, hc⟩ := Option.isSome_iff_exists.mp h
  have hkey := find?_updFirst (fun c => c.idx == j)
    (fun c => { c with insts := c.insts ++ [i] }) L.cells
    (fun a ha => by simpa using ha) (by simpa [getCell] using h)
  simp only [instsOf, insertInst, getCell] at hc ⊢
  rw [hkey, hc]
  rfl

theorem instsOf_addCell {L : Layout} {j : ℕ} (nm : String)
    (h : (getCell L j).isSome) :
    instsOf (addCell L nm).1 j = instsOf L j := by
  simp only [instsOf, getCell_addCell nm h]

theorem find?_append_none {α} (p : α → Bool) (l1 l2 : List α)
    (h : l1.find? p = none) : (l1 ++ l2).find? p = l2.find? p := by
  induction l1 with
  | nil => simp
  | cons x xs ih =>
    rw [List.find?_cons] at h
    rw [List.cons_append, List.find?_cons]
    cases hx : p x with
    | true => rw [hx] at h; cases h
    | false =>
      rw [hx] at h
      exact ih h

theorem assocLookup_append_self (l : List (ℕ × ℕ)) (n v : ℕ)
    (h : assocLookup l n = none) : assocLookup (l ++ [(n, v)]) n = some v := by
  simp only [assocLookup, Option.map_eq_none'] at h
  simp only [assocLookup, find?_append_none _ _ _ h]
  simp [List.find?]

/-- Claim C9, first part: for every instance command of the form
`C n T x y ;` read at scale `sf` with no pending array parameters, the
inserted instance carries the exact translation `(x·sf, y·sf)`, its
stored displacement is that translation rounded to integers, and it is
stored as an integer transform (a pure translation is orthogonal with
unit magnification).  Second part: for every `C` command whatsoever, the
inserted instance is stored as an integer transform exactly when its
accumulated transform is an orthogonal rotation/mirror without
magnification (`db::Trans` versus `db::ICplxTrans`, source lines
569-581). -/
theorem claim_C9 :
    (∀ (cfg : Config) (f : ℕ) (sf : ℚ) (cur : ℕ) (st : RState)
      (nds xds yds rest : List Char) (sgx sgy : Bool) (dx dy : ℤ),
      nds ≠ [] → nds.all isDigitC = true → valD nds ≤ intMax →
      xds ≠ [] → xds.all isDigitC = true → valD xds ≤ intMax →
      yds ≠ [] → yds.all isDigitC = true → valD yds ≤ intMax →
      (getCell st.layout cur).isSome →
      ∃ st1, handleC cfg (f + 2) sf cur st
          (' ' :: (nds ++ (' ' :: ('T' :: (' ' :: ((cond sgx ['-'] []) ++ (xds ++
            (' ' :: ((cond sgy ['-'] []) ++ (yds ++ (';' :: rest)))))))))))
          0 0 dx dy = .ok (st1, rest) ∧
        ∃ i, instsOf st1.layout cur = instsOf st.layout cur ++ [i] ∧
          i.t.disp = ((cond sgx (-valD xds) (valD xds)) * sf,
                      (cond sgy (-valD yds) (valD yds)) * sf) ∧
          i.disp = (rnd ((cond sgx (-valD xds) (valD xds)) * sf),
                    rnd ((cond sgy (-valD yds) (valD yds)) * sf)) ∧
          i.intKind = true ∧ i.arr = none) ∧
    (∀ (cfg : Config) (fuel : ℕ) (sf : ℚ) (cur : ℕ) (st : RState)
      (input : List Char) (nx ny dx dy : ℤ) (st1 : RState) (rest1 : List Char),
      (getCell st.layout cur).isSome →
      handleC cfg fuel sf cur st input nx ny dx dy = .ok (st1, rest1) →
      ∃ i, instsOf st1.layout cur = instsOf st.layout cur ++ [i] ∧
        i.intKind = (isOrtho i.t && !isMag i.t)) := by
  constructor
  · intro cfg f sf cur st nds xds yds rest sgx sgy dx dy hn1 hn2 hn3 hx1 hx2 hx3
      hy1 hy2 hy3 hcur
    unfold handleC
    have hri : readInteger st.cellname
        (' ' :: (nds ++ (' ' :: ('T' :: (' ' :: ((cond sgx ['-'] []) ++ (xds ++
          (' ' :: ((cond sgy ['-'] []) ++ (yds ++ (';' :: rest))))))))))) =
        .ok (valD nds, ' ' :: ('T' :: (' ' :: ((cond sgx ['-'] []) ++ (xds ++
          (' ' :: ((cond sgy ['-'] []) ++ (yds ++ (';' :: rest))))))))) := by
      unfold readInteger
      rw [skipSep_skip (by decide)]
      cases nds with
      | nil => exact absurd rfl hn1
      | cons d nds' =>
        have hd : isDigitC d = true := by
          simp only [List.all_cons, Bool.and_eq_true] at hn2
          exact hn2.1
        rw [List.cons_append, skipSep_stop (by simp [sepStop, hd])]
        exact readIntegerDigits_ok st.cellname (d :: nds') _ hn1 hn2 hn3
          (fun c hc => by cases hc; decide)
    rw [hri]
    dsimp only
    have htr := readTransLoop_T cfg st.cellname sf f sgx sgy xds yds rest
      hx1 hx2 hx3 hy1 hy2 hy3
    cases hlk : assocLookup st.cellsById (valD nds).toNat with
    | some ci =>
      dsimp only
      rw [htr]
      dsimp only
      rw [expectSemi_semi]
      refine ⟨_, rfl, ⟨_, instsOf_insertInst _ hcur, ?_, ?_, ?_, ?_⟩⟩
      · simp [mkInst, applyT, idTrans]
      · simp [mkInst, applyT, idTrans]
      · simp [mkInst, applyT, idTrans, isOrtho, isMag]
      · simp [mkInst]
    | none =>
      dsimp only
      rw [assocLookup_append_self _ _ _ hlk]
      rw [htr]
      dsimp only
      rw [expectSemi_semi]
      dsimp only
      have hcur2 : (getCell (addCell st.layout
          ("C" ++ toString (valD nds).toNat)).1 cur).isSome := by
        rw [getCell_addCell _ hcur]
        exact hcur
      exact ⟨_, rfl, ⟨_,
        by rw [instsOf_insertInst _ hcur2, instsOf_addCell _ hcur],
        by simp [mkInst, applyT, idTrans],
        by simp [mkInst, applyT, idTrans],
        by simp [mkInst, applyT, idTrans, isOrtho, isMag],
        by simp [mkInst]⟩⟩
  · intro cfg fuel sf cur st input nx ny dx dy st1 rest1 hcur h
    unfold handleC at h
    cases hri : readInteger st.cellname input with
    | error e => rw [hri] at h; cases h
    | ok v =>
      obtain ⟨n0, r1⟩ := v
      rw [hri] at h
      dsimp only at h
      cases hlk : assocLookup st.cellsById n0.toNat with
      | some ci =>
        rw [hlk] at h
        dsimp only at h
        rw [hlk] at h
        cases htr : readTransLoop cfg st.cellname sf fuel idTrans r1 with
        | error e => rw [htr] at h; cases h
        | ok w =>
          obtain ⟨tr, r2⟩ := w
          rw [htr] at h
          dsimp only at h
          cases hes : expectSemi st.cellname r2 with
          | error e => rw [hes] at h; cases h
          | ok r3 =>
            rw [hes] at h
            dsimp only at h
            cases h
            exact ⟨_, instsOf_insertInst _ hcur, rfl⟩
      | none =>
        rw [hlk] at h
        dsimp only at h
        cases htr : readTransLoop cfg st.cellname sf fuel idTrans r1 with
        | error e => rw [htr] at h; cases h
        | ok w =>
          obtain ⟨tr, r2⟩ := w
          rw [htr] at h
          dsimp only at h
          cases hes : expectSemi st.cellname r2 with
          | error e => rw [hes] at h; cases h
          | ok r3 =>
            rw [hes] at h
            dsimp only at h
            cases h
            have hcur2 : (getCell (addCell st.layout
                ("C" ++ toString n0.toNat)).1 cur).isSome := by
              rw [getCell_addCell _ hcur]
              exact hcur
            exact ⟨_,
              by rw [instsOf_insertInst _ hcur2, instsOf_addCell _ hcur],
              rfl⟩

/-- Witness for claim C9 at the concrete command `C 1 T 2 3;` read with
scale factor 1 into cell 0 of the example layout. -/
theorem claim_C9_witness :
    ∃ st1, handleC cfgEx (3 + 2) 1 0 stEx
        (' ' :: (['1'] ++ (' ' :: ('T' :: (' ' :: ((cond false ['-'] []) ++ (['2'] ++
          (' ' :: ((cond false ['-'] []) ++ (['3'] ++ (';' :: ([] : List Char))))))))))))
        0 0 0 0 = .ok (st1, []) ∧
      ∃ i, instsOf st1.layout 0 = instsOf stEx.layout 0 ++ [i] ∧
        i.t.disp = (((cond false (-valD ['2']) (valD ['2']) : ℤ) : ℚ) * 1,
                    ((cond false (-valD ['3']) (valD ['3']) : ℤ) : ℚ) * 1) ∧
        i.disp = (rnd (((cond false (-valD ['2']) (valD ['2']) : ℤ) : ℚ) * 1),
                  rnd (((cond false (-valD ['3']) (valD ['3']) : ℤ) : ℚ) * 1)) ∧
        i.intKind = true ∧ i.arr = none :=
  claim_C9.1 cfgEx 3 1 0 stEx ['1'] ['2'] ['3'] [] false false 0 0
    (by decide) (by decide) (by decide) (by decide) (by decide) (by decide)
    (by decide) (by decide) (by decide) (by decide)

/-! ## List bookkeeping lemmas for the dispatcher invariant -/

theorem updFirst_map {α β} (p : α → Bool) (f : α → α) (g : α → β)
    (hg : ∀ a, g (f a) = g a) (l : List α) :
    (updFirst p f l).map g = l.map g := by
  induction l with
  | nil => rfl
  | cons x xs ih =>
    rw [updFirst]
    split
    · simp [hg]
    · simp [ih]

theorem updFirst_length {α} (p : α → Bool) (f : α → α) (l : List α) :
    (updFirst p f l).length = l.length := by
  induction l with
  | nil => rfl
  | cons x xs ih =>
    rw [updFirst]
    split
    · simp
    · simp [ih]

theorem updFirst_mem_of_not {α} {p : α → Bool} {f : α → α} {a : α} {l : List α}
    (ha : a ∈ l) (hp : p a = false) : a ∈ updFirst p f l := by
  induction l with
  | nil => cases ha
  | cons x xs ih =>
    rw [updFirst]
    split
    · next hx =>
        rcases List.mem_cons.mp ha with h | h
        · rw [h] at hp; rw [hx] at hp; cases hp
        · exact List.mem_cons_of_mem _ h
    · rcases List.mem_cons.mp ha with h | h
      · rw [h]; exact List.mem_cons_self _ _
      · exact List.mem_cons_of_mem _ (ih h)

theorem updFirst_mem_or {α} {p : α → Bool} {f : α → α} {a : α} {l : List α}
    (ha : a ∈ updFirst p f l) : a ∈ l ∨ ∃ b ∈ l, a = f b := by
  induction l with
  | nil => cases ha
  | cons x xs ih =>
    rw [updFirst] at ha
    split at ha
    · rcases List.mem_cons.mp ha with h | h
      · exact Or.inr ⟨x, List.mem_cons_self x xs, h⟩
      · exact Or.inl (List.mem_cons_of_mem _ h)
    · rcases List.mem_cons.mp ha with h | h
      · exact Or.inl (by rw [h]; exact List.mem_cons_self x xs)
      · rcases ih h with h2 | ⟨b, hb, he⟩
        · exact Or.inl (List.mem_cons_of_mem _ h2)
        · exact Or.inr ⟨b, List.mem_cons_of_mem _ hb, he⟩

theorem assocLookup_isSome {l : List (ℕ × ℕ)} {n : ℕ}
    (h : (assocLookup l n).isSome = true) : ∃ p ∈ l, p.1 = n := by
  rw [assocLookup] at h
  cases hf : l.find? (fun p => p.1 = n) with
  | none => rw [hf] at h; cases h
  | some q =>
    refine ⟨q, List.mem_of_find?_eq_some hf, ?_⟩
    have hq := List.find?_some hf
    simpa using hq

theorem assocLookup_none_key {l : List (ℕ × ℕ)} {n : ℕ}
    (h : assocLookup l n = none) : n ∉ l.map Prod.fst := by
  rw [assocLookup, Option.map_eq_none'] at h
  rw [List.find?_eq_none] at h
  intro hm
  rcases List.mem_map.mp hm with ⟨p, hp, he⟩
  have hc := h p hp
  simp [he] at hc

theorem nodup_snoc {α} [DecidableEq α] {l : List α} {a : α} (h1 : l.Nodup)
    (h2 : a ∉ l) : (l ++ [a]).Nodup := by
  rw [List.nodup_append]
  refine ⟨h1, List.nodup_singleton a, ?_⟩
  intro x hx hx2
  rw [List.mem_singleton] at hx2
  rw [hx2] at hx
  exact h2 hx

theorem exists_idx_of_map {l : List CifCell} {j : ℕ}
    (h : j ∈ l.map CifCell.idx) : ∃ c ∈ l, c.idx = j := by
  rcases List.mem_map.mp h with ⟨c, hc, he⟩
  exact ⟨c, hc, he⟩

theorem map_of_exists_idx {l : List CifCell} {j : ℕ}
    (h : ∃ c ∈ l, c.idx = j) : j ∈ l.map CifCell.idx := by
  rcases h with ⟨c, hc, he⟩
  exact List.mem_map.mpr ⟨c, hc, he⟩

theorem StepRel_refl (st : RState) : StepRel st st :=
  ⟨le_refl _, ⟨[], by simp⟩, ⟨[], by simp⟩, le_refl _, rfl⟩

theorem StepRel_trans {a b c : RState} (h1 : StepRel a b) (h2 : StepRel b c) :
    StepRel a c := by
  obtain ⟨d1, ⟨l1, e1⟩, ⟨k1, f1⟩, n1, q1⟩ := h1
  obtain ⟨d2, ⟨l2, e2⟩, ⟨k2, f2⟩, n2, q2⟩ := h2
  refine ⟨le_trans d1 d2, ⟨l1 ++ l2, by rw [e2, e1, List.append_assoc]⟩,
    ⟨k1 ++ k2, by rw [f2, f1, List.append_assoc]⟩, le_trans n1 n2, ?_⟩
  omega

/-! ## Invariant preservation under the layout operations -/

theorem MapInv_updFirst {top cur : ℕ} {st : RState}
    (hM : MapInv top st) (hC : CurOK top cur st)
    (f : CifCell → CifCell) (hidx : ∀ c, (f c).idx = c.idx) :
    MapInv top { st with layout :=
      { st.layout with cells := updFirst (fun c => c.idx == cur) f st.layout.cells } } := by
  obtain ⟨m1, m2, m3, m4, m5, m6, m7, m8, m9⟩ := hM
  have hmap : (updFirst (fun c => c.idx == cur) f st.layout.cells).map CifCell.idx
      = st.layout.cells.map CifCell.idx :=
    updFirst_map _ _ _ hidx _
  refine ⟨?_, ?_, m3, ?_, m5, m6, ?_, ?_, m9⟩
  · intro c hc
    rcases updFirst_mem_or hc with h | ⟨b, hb, he⟩
    · exact m1 c h
    · rw [he, hidx]; exact m1 b hb
  · dsimp only
    rw [hmap]
    exact m2
  · exact exists_idx_of_map (by dsimp only; rw [hmap]; exact map_of_exists_idx m4)
  · intro p hp
    obtain ⟨h71, h72, h73⟩ := m7 p hp
    exact ⟨h71, h72,
      exists_idx_of_map (by dsimp only; rw [hmap]; exact map_of_exists_idx h73)⟩
  · intro p hp hnd
    obtain ⟨c, hc, hcidx, hcn, hcs, hci⟩ := m8 p hp hnd
    have hne : c.idx ≠ cur := by
      rw [hcidx]
      rcases hC.2 with hco | ⟨m, hmds, q, hq, hq1, hq2⟩
      · rw [hco]; exact (m7 p hp).1
      · rw [← hq2]
        intro he
        have hpq : p = q := List.inj_on_of_nodup_map m6 hp hq he
        rw [hpq, hq1] at hnd
        exact hnd hmds
    refine ⟨c, ?_, hcidx, hcn, hcs, hci⟩
    apply updFirst_mem_of_not hc
    simp only [beq_eq_false_iff_ne, ne_eq]
    exact hne

theorem MapInv_insertShape {top cur : ℕ} {st : RState} (hM : MapInv top st)
    (hC : CurOK top cur st) (s : ℕ × Shape) :
    MapInv top { st with layout := insertShape st.layout cur s } :=
  MapInv_updFirst hM hC _ (fun _ => rfl)

theorem MapInv_insertInst {top cur : ℕ} {st : RState} (hM : MapInv top st)
    (hC : CurOK top cur st) (i : Inst) :
    MapInv top { st with layout := insertInst st.layout cur i } :=
  MapInv_updFirst hM hC _ (fun _ => rfl)

theorem MapInv_renameCell {top cur : ℕ} {st : RState} (hM : MapInv top st)
    (hC : CurOK top cur st) (nm : String) :
    MapInv top { st with layout := renameCell st.layout cur nm } :=
  MapInv_updFirst hM hC _ (fun _ => rfl)

theorem MapInv_transfer {top : ℕ} {st st1 : RState} (hM : MapInv top st)
    (hcells : st1.layout.cells = st.layout.cells)
    (hnext : st1.layout.nextCell = st.layout.nextCell)
    (hmap : st1.cellsById = st.cellsById)
    (hds : ∀ x ∈ st.dsIds, x ∈ st1.dsIds)
    (hrefs : ∀ m ∈ st1.cRefs, ∃ p ∈ st1.cellsById, p.1 = m) : MapInv top st1 := by
  obtain ⟨m1, m2, m3, m4, m5, m6, m7, m8, m9⟩ := hM
  refine ⟨by rw [hcells, hnext]; exact m1, by rw [hcells]; exact m2,
    by rw [hnext]; exact m3, by rw [hcells]; exact m4,
    by rw [hmap]; exact m5, by rw [hmap]; exact m6,
    by rw [hcells, hnext, hmap]; exact m7,
    ?_, hrefs⟩
  intro p hp hnd
  rw [hmap] at hp
  rw [hcells]
  exact m8 p hp (fun hx => hnd (hds _ hx))

theorem MapInv_addCell_entry {top : ℕ} {st : RState} (hM : MapInv top st)
    {n : ℕ} (hn : assocLookup st.cellsById n = none) :
    MapInv top { st with
      layout := (addCell st.layout ("C" ++ toString n)).1,
      cellsById := st.cellsById ++ [(n, st.layout.nextCell)] } := by
  obtain ⟨m1, m2, m3, m4, m5, m6, m7, m8, m9⟩ := hM
  refine ⟨?_, ?_, ?_, ?_, ?_, ?_, ?_, ?_, ?_⟩
  · intro c hc
    dsimp only [addCell] at hc
    rcases List.mem_append.mp hc with h | h
    · exact Nat.lt_succ_of_lt (m1 c h)
    · rw [List.mem_singleton] at h
      rw [h]
      exact Nat.lt_succ_self _
  · dsimp only [addCell]
    rw [List.map_append]
    exact nodup_snoc m2 (fun hm => by
      rcases List.mem_map.mp hm with ⟨c, hc, he⟩
      have hlt := m1 c hc
      dsimp only at he
      omega)
  · exact Nat.lt_succ_of_lt m3
  · obtain ⟨c, hc, he⟩ := m4
    exact ⟨c, List.mem_append_left _ hc, he⟩
  · rw [List.map_append]
    exact nodup_snoc m5 (fun hm => (assocLookup_none_key hn) (by simpa using hm))
  · rw [List.map_append]
    exact nodup_snoc m6 (fun hm => by
      rcases List.mem_map.mp hm with ⟨p, hp, he⟩
      have hlt := (m7 p hp).2.1
      dsimp only at he
      omega)
  · intro p hp
    rcases List.mem_append.mp hp with h | h
    · obtain ⟨h71, h72, h73⟩ := m7 p h
      obtain ⟨c, hc, he⟩ := h73
      exact ⟨h71, Nat.lt_succ_of_lt h72, c, List.mem_append_left _ hc, he⟩
    · rw [List.mem_singleton] at h
      rw [h]
      exact ⟨Nat.ne_of_gt m3, Nat.lt_succ_self _,
        ⟨{ idx := st.layout.nextCell, name := "C" ++ toString n },
          List.mem_append_right _ (List.mem_singleton_self _), rfl⟩⟩
  · intro p hp hnd
    rcases List.mem_append.mp hp with h | h
    · obtain ⟨c, hc, hcidx, hcn, hcs, hci⟩ := m8 p h hnd
      exact ⟨c, List.mem_append_left _ hc, hcidx, hcn, hcs, hci⟩
    · rw [List.mem_singleton] at h
      rw [h]
      exact ⟨{ idx := st.layout.nextCell, name := "C" ++ toString n },
        List.mem_append_right _ (List.mem_singleton_self _), rfl, rfl, rfl, rfl⟩
  · intro m hm
    obtain ⟨p, hp, he⟩ := m9 m hm
    exact ⟨p, List.mem_append_left _ hp, he⟩

theorem CurOK_mono {top cur : ℕ} {st st1 : RState} (hC : CurOK top cur st)
    (hnext : st.layout.nextCell ≤ st1.layout.nextCell)
    (hmap : ∃ l, st1.cellsById = st.cellsById ++ l)
    (hds : ∃ l, st1.dsIds = st.dsIds ++ l) : CurOK top cur st1 := by
  obtain ⟨h1, h2⟩ := hC
  obtain ⟨lm, hm⟩ := hmap
  obtain ⟨ld, hd⟩ := hds
  refine ⟨lt_of_lt_of_le h1 hnext, ?_⟩
  rcases h2 with h | ⟨m, hmds, q, hq, hq1, hq2⟩
  · exact Or.inl h
  · exact Or.inr ⟨m, by rw [hd]; exact List.mem_append_left _ hmds,
      q, by rw [hm]; exact List.mem_append_left _ hq, hq1, hq2⟩

theorem StepRel_of_eq {st st1 : RState}
    (hd : st.dsCount ≤ st1.dsCount)
    (hmap : st1.cellsById = st.cellsById)
    (hds : st1.dsIds = st.dsIds)
    (hnext : st.layout.nextCell ≤ st1.layout.nextCell)
    (hlen : st1.layout.cells.length = st.layout.cells.length) : StepRel st st1 :=
  ⟨hd, ⟨[], by rw [hmap, List.append_nil]⟩, ⟨[], by rw [hds, List.append_nil]⟩,
    hnext, by rw [hlen, hmap]⟩

/-! ## Net-effect lemmas for the command handlers -/

theorem handleB_eff {cfg cn sf layer cur sh L input sh2 L2 rest2}
    (h : handleB cfg cn sf layer cur sh L input = .ok (sh2, L2, rest2)) :
    sh2 = sh + 1 ∧ (L2 = L ∨ ∃ s, L2 = insertShape L cur s) := by
  unfold handleB at h
  split at h
  · simp only [Except.ok.injEq, Prod.mk.injEq] at h
    exact ⟨h.1.symm, Or.inl h.2.1.symm⟩
  · cases h1 : readInteger cn input with
    | error e => rw [h1] at h; cases h
    | ok v1 =>
      obtain ⟨w, r1⟩ := v1
      rw [h1] at h
      dsimp only at h
      cases h2 : readInteger cn r1 with
      | error e => rw [h2] at h; cases h
      | ok v2 =>
        obtain ⟨b2, r2⟩ := v2
        rw [h2] at h
        dsimp only at h
        cases h3 : readSInteger cn r2 with
        | error e => rw [h3] at h; cases h
        | ok v3 =>
          obtain ⟨x, r3⟩ := v3
          rw [h3] at h
          dsimp only at h
          cases h4 : readSInteger cn r3 with
          | error e => rw [h4] at h; cases h
          | ok v4 =>
            obtain ⟨y, r4⟩ := v4
            rw [h4] at h
            dsimp only at h
            cases h5 : testSemi r4 with
            | mk sb r5 =>
              rw [h5] at h
              cases sb with
              | true =>
                dsimp only at h
                cases h7 : expectSemi cn r5 with
                | error e => rw [h7] at h; cases h
                | ok r8 =>
                  rw [h7] at h
                  dsimp only at h
                  simp only [Except.ok.injEq, Prod.mk.injEq] at h
                  obtain ⟨ha, hb, hc⟩ := h
                  split at hb
                  · exact ⟨ha.symm, Or.inr ⟨_, hb.symm⟩⟩
                  · exact ⟨ha.symm, Or.inr ⟨_, hb.symm⟩⟩
              | false =>
                dsimp only at h
                cases h8 : readSInteger cn r5 with
                | error e => rw [h8] at h; cases h
                | ok v8 =>
                  obtain ⟨rx, r6⟩ := v8
                  rw [h8] at h
                  dsimp only at h
                  cases h9 : readSInteger cn r6 with
                  | error e => rw [h9] at h; cases h
                  | ok v9 =>
                    obtain ⟨ry, r7⟩ := v9
                    rw [h9] at h
                    dsimp only at h
                    cases h7 : expectSemi cn r7 with
                    | error e => rw [h7] at h; cases h
                    | ok r8 =>
                      rw [h7] at h
                      dsimp only at h
                      simp only [Except.ok.injEq, Prod.mk.injEq] at h
                      obtain ⟨ha, hb, hc⟩ := h
                      split at hb
                      · exact ⟨ha.symm, Or.inr ⟨_, hb.symm⟩⟩
                      · exact ⟨ha.symm, Or.inr ⟨_, hb.symm⟩⟩

theorem handleP_eff {cn sf layer cur sh fuel L input sh2 L2 rest2}
    (h : handleP cn sf layer cur sh fuel L input = .ok (sh2, L2, rest2)) :
    sh2 = sh + 1 ∧ (L2 = L ∨ ∃ s, L2 = insertShape L cur s) := by
  unfold handleP at h
  split at h
  · simp only [Except.ok.injEq, Prod.mk.injEq] at h
    exact ⟨h.1.symm, Or.inl h.2.1.symm⟩
  · cases h1 : readPoints cn sf fuel [] input with
    | error e => rw [h1] at h; cases h
    | ok v1 =>
      obtain ⟨pts, r1⟩ := v1
      rw [h1] at h
      dsimp only at h
      cases h2 : expectSemi cn r1 with
      | error e => rw [h2] at h; cases h
      | ok r2 =>
        rw [h2] at h
        dsimp only at h
        simp only [Except.ok.injEq, Prod.mk.injEq] at h
        exact ⟨h.1.symm, Or.inr ⟨_, h.2.1.symm⟩⟩

theorem handleR_eff {cn sf layer cur sh L input sh2 L2 rest2}
    (h : handleR cn sf layer cur sh L input = .ok (sh2, L2, rest2)) :
    sh2 = sh + 1 ∧ (L2 = L ∨ ∃ s, L2 = insertShape L cur s) := by
  unfold handleR at h
  split at h
  · simp only [Except.ok.injEq, Prod.mk.injEq] at h
    exact ⟨h.1.symm, Or.inl h.2.1.symm⟩
  · cases h1 : readInteger cn input with
    | error e => rw [h1] at h; cases h
    | ok v1 =>
      obtain ⟨w, r1⟩ := v1
      rw [h1] at h
      dsimp only at h
      cases h2 : readSInteger cn r1 with
      | error e => rw [h2] at h; cases h
      | ok v2 =>
        obtain ⟨rx, r2⟩ := v2
        rw [h2] at h
        dsimp only at h
        cases h3 : readSInteger cn r2 with
        | error e => rw [h3] at h; cases h
        | ok v3 =>
          obtain ⟨ry, r3⟩ := v3
          rw [h3] at h
          dsimp only at h
          cases h4 : expectSemi cn r3 with
          | error e => rw [h4] at h; cases h
          | ok r4 =>
            rw [h4] at h
            dsimp only at h
            simp only [Except.ok.injEq, Prod.mk.injEq] at h
            exact ⟨h.1.symm, Or.inr ⟨_, h.2.1.symm⟩⟩

theorem handleW_eff {cfg cn sf pm layer cur sh fuel L input sh2 L2 rest2}
    (h : handleW cfg cn sf pm layer cur sh fuel L input = .ok (sh2, L2, rest2)) :
    sh2 = sh + 1 ∧ (L2 = L ∨ ∃ s, L2 = insertShape L cur s) := by
  unfold handleW at h
  split at h
  · simp only [Except.ok.injEq, Prod.mk.injEq] at h
    exact ⟨h.1.symm, Or.inl h.2.1.symm⟩
  · cases h1 : readInteger cn input with
    | error e => rw [h1] at h; cases h
    | ok v1 =>
      obtain ⟨w, r1⟩ := v1
      rw [h1] at h
      dsimp only at h
      cases h2 : readPoints cn sf fuel [] r1 with
      | error e => rw [h2] at h; cases h
      | ok v2 =>
        obtain ⟨pts, r2⟩ := v2
        rw [h2] at h
        dsimp only at h
        cases h3 : expectSemi cn r2 with
        | error e => rw [h3] at h; cases h
        | ok r3 =>
          rw [h3] at h
          dsimp only at h
          simp only [Except.ok.injEq, Prod.mk.injEq] at h
          exact ⟨h.1.symm, Or.inr ⟨_, h.2.1.symm⟩⟩

theorem handle94_eff {cfg cn sf layer cur lm sh L input sh2 L2 rest2}
    (h : handle94 cfg cn sf layer cur lm sh L input = .ok (sh2, L2, rest2)) :
    sh2 = sh + 1 ∧ (L2 = L ∨ ∃ s, L2 = insertShape L cur s) := by
  unfold handle94 at h
  split at h
  · simp only [Except.ok.injEq, Prod.mk.injEq] at h
    exact ⟨h.1.symm, Or.inl h.2.1.symm⟩
  · cases h0 : readStr input with
    | mk text r1 =>
      rw [h0] at h
      dsimp only at h
      cases h1 : readSInteger cn r1 with
      | error e => rw [h1] at h; cases h
      | ok v1 =>
        obtain ⟨rx, r2⟩ := v1
        rw [h1] at h
        dsimp only at h
        cases h2 : readSInteger cn r2 with
        | error e => rw [h2] at h; cases h
        | ok v2 =>
          obtain ⟨ry, r3⟩ := v2
          rw [h2] at h
          dsimp only at h
          cases h5 : testSemi r3 with
          | mk sb r4 =>
            rw [h5] at h
            cases sb with
            | true =>
              dsimp only at h
              cases h6 : readName r4 with
              | mk nm r6 =>
                rw [h6] at h
                dsimp only at h
                simp only [Except.ok.injEq, Prod.mk.injEq] at h
                exact ⟨h.1.symm, Or.inr ⟨_, h.2.1.symm⟩⟩
            | false =>
              dsimp only at h
              cases h7 : readDouble r4 with
              | mk hv r5 =>
                rw [h7] at h
                dsimp only at h
                cases h6 : readName r5 with
                | mk nm r6 =>
                  rw [h6] at h
                  dsimp only at h
                  simp only [Except.ok.injEq, Prod.mk.injEq] at h
                  exact ⟨h.1.symm, Or.inr ⟨_, h.2.1.symm⟩⟩

theorem handle95_eff {cn sf layer cur sh L input sh2 L2 rest2}
    (h : handle95 cn sf layer cur sh L input = .ok (sh2, L2, rest2)) :
    sh2 = sh + 1 ∧ (L2 = L ∨ ∃ s, L2 = insertShape L cur s) := by
  unfold handle95 at h
  split at h
  · simp only [Except.ok.injEq, Prod.mk.injEq] at h
    exact ⟨h.1.symm, Or.inl h.2.1.symm⟩
  · cases h0 : readStr input with
    | mk text r1 =>
      rw [h0] at h
      dsimp only at h
      cases h1 : readSInteger cn r1 with
      | error e => rw [h1] at h; cases h
      | ok v1 =>
        obtain ⟨a1, r2⟩ := v1
        rw [h1] at h
        dsimp only at h
        cases h2 : readSInteger cn r2 with
        | error e => rw [h2] at h; cases h
        | ok v2 =>
          obtain ⟨a2, r3⟩ := v2
          rw [h2] at h
          dsimp only at h
          cases h3 : readSInteger cn r3 with
          | error e => rw [h3] at h; cases h
          | ok v3 =>
            obtain ⟨rx, r4⟩ := v3
            rw [h3] at h
            dsimp only at h
            cases h4 : readSInteger cn r4 with
            | error e => rw [h4] at h; cases h
            | ok v4 =>
              obtain ⟨ry, r5⟩ := v4
              rw [h4] at h
              dsimp only at h
              simp only [Except.ok.injEq, Prod.mk.injEq] at h
              exact ⟨h.1.symm, Or.inr ⟨_, h.2.1.symm⟩⟩

theorem handleL_eff {cfg st input ly st2 rest2}
    (h : handleL cfg st input = .ok (ly, st2, rest2)) :
    st2.cellsById = st.cellsById ∧ st2.dsIds = st.dsIds ∧ st2.cRefs = st.cRefs ∧
    st2.dsCount = st.dsCount ∧ st2.cellname = st.cellname ∧
    st2.layout.cells = st.layout.cells ∧
    st2.layout.nextCell = st.layout.nextCell := by
  unfold handleL at h
  dsimp only at h
  cases h0 : readName (skipBlanks input) with
  | mk name r1 =>
    rw [h0] at h
    dsimp only at h
    split at h
    · cases h
    · split at h
      · cases h1 : expectSemi st.cellname r1 with
        | error e => rw [h1] at h; cases h
        | ok r2 =>
          rw [h1] at h
          dsimp only at h
          simp only [Except.ok.injEq, Prod.mk.injEq] at h
          obtain ⟨h2, h3, h4⟩ := h
          rw [← h3]
          split
          · exact ⟨rfl, rfl, rfl, rfl, rfl, rfl, rfl⟩
          · exact ⟨rfl, rfl, rfl, rfl, rfl, rfl, rfl⟩
      · split at h
        · cases h1 : expectSemi st.cellname r1 with
          | error e => rw [h1] at h; cases h
          | ok r2 =>
            rw [h1] at h
            dsimp only at h
            simp only [Except.ok.injEq, Prod.mk.injEq] at h
            obtain ⟨h2, h3, h4⟩ := h
            rw [← h3]
            exact ⟨rfl, rfl, rfl, rfl, rfl, rfl, rfl⟩
        · split at h
          · cases h1 : expectSemi st.cellname r1 with
            | error e => rw [h1] at h; cases h
            | ok r2 =>
              rw [h1] at h
              dsimp only at h
              simp only [Except.ok.injEq, Prod.mk.injEq] at h
              obtain ⟨h2, h3, h4⟩ := h
              rw [← h3]
              exact ⟨rfl, rfl, rfl, rfl, rfl, rfl, rfl⟩
          · cases h1 : expectSemi st.cellname r1 with
            | error e => rw [h1] at h; cases h
            | ok r2 =>
              rw [h1] at h
              dsimp only at h
              simp only [Except.ok.injEq, Prod.mk.injEq] at h
              obtain ⟨h2, h3, h4⟩ := h
              rw [← h3]
              exact ⟨rfl, rfl, rfl, rfl, rfl, rfl, rfl⟩

theorem handleC_effect {cfg fuel sf cur st input nx ny dx dy st1 rest1}
    (h : handleC cfg fuel sf cur st input nx ny dx dy = .ok (st1, rest1)) :
    CStep cur st st1 := by
  unfold handleC at h
  cases hri : readInteger st.cellname input with
  | error e => rw [hri] at h; cases h
  | ok v =>
    obtain ⟨n0, r1⟩ := v
    rw [hri] at h
    dsimp only at h
    cases hlk : assocLookup st.cellsById n0.toNat with
    | some ci =>
      rw [hlk] at h
      dsimp only at h
      rw [hlk] at h
      cases htr : readTransLoop cfg st.cellname sf fuel idTrans r1 with
      | error e => rw [htr] at h; cases h
      | ok w =>
        obtain ⟨tr, r2⟩ := w
        rw [htr] at h
        dsimp only at h
        cases hes : expectSemi st.cellname r2 with
        | error e => rw [hes] at h; cases h
        | ok r3 =>
          rw [hes] at h
          dsimp only at h
          cases h
          exact ⟨n0.toNat, _, rfl, rfl, rfl, rfl, rfl, rfl, rfl,
            Or.inl ⟨by rw [hlk]; rfl, rfl, rfl⟩⟩
    | none =>
      rw [hlk] at h
      dsimp only at h
      cases htr : readTransLoop cfg st.cellname sf fuel idTrans r1 with
      | error e => rw [htr] at h; cases h
      | ok w =>
        obtain ⟨tr, r2⟩ := w
        rw [htr] at h
        dsimp only at h
        cases hes : expectSemi st.cellname r2 with
        | error e => rw [hes] at h; cases h
        | ok r3 =>
          rw [hes] at h
          dsimp only at h
          cases h
          exact ⟨n0.toNat, _, rfl, rfl, rfl, rfl, rfl, rfl, rfl,
            Or.inr ⟨hlk, rfl, rfl⟩⟩

theorem dsBody_effect {recur sf st input st1 rest1}
    (h : dsBody recur sf st input = .ok (st1, rest1)) :
    ∃ n sf2 inp2 st2 out, DStep n st st2 ∧
      recur sf2 ((assocLookup st2.cellsById n).getD 0) st2 inp2 = .ok out ∧
      st1 = { out.st with cellname := st.cellname } ∧ rest1 = out.rest := by
  unfold dsBody at h
  cases hri : readInteger st.cellname input with
  | error e => rw [hri] at h; cases h
  | ok v =>
    obtain ⟨n0, r1⟩ := v
    rw [hri] at h
    dsimp only at h
    cases hts : testSemi r1 with
    | mk sb r2 =>
      rw [hts] at h
      cases sb with
      | true =>
        dsimp only at h
        cases hes : expectSemi st.cellname r2 with
        | error e => rw [hes] at h; cases h
        | ok r5 =>
          rw [hes] at h
          dsimp only at h
          cases hlk : assocLookup st.cellsById n0.toNat with
          | some ci =>
            rw [hlk] at h
            dsimp only at h
            split at h
            · cases h
            · rename_i out heq
              cases h
              refine ⟨n0.toNat, _, r5,
                { st with cellname := "C" ++ toString n0.toNat,
                          dsCount := st.dsCount + 1,
                          dsIds := st.dsIds ++ [n0.toNat] }, out, ?_, heq, rfl, rfl⟩
              exact ⟨rfl, rfl, rfl, rfl, rfl, rfl, rfl,
                Or.inl ⟨by rw [hlk]; rfl, rfl, rfl⟩⟩
          | none =>
            rw [hlk] at h
            dsimp only at h
            split at h
            · cases h
            · rename_i out heq
              cases h
              refine ⟨n0.toNat, _, r5,
                { st with cellname := "C" ++ toString n0.toNat,
                          dsCount := st.dsCount + 1,
                          dsIds := st.dsIds ++ [n0.toNat],
                          cellsById := st.cellsById ++
                            [(n0.toNat, (addCell st.layout ("C" ++ toString n0.toNat)).2)],
                          layout := (addCell st.layout
                            ("C" ++ toString n0.toNat)).1 }, out, ?_, heq, rfl, rfl⟩
              exact ⟨rfl, rfl, rfl, rfl, rfl, rfl, rfl,
                Or.inr ⟨hlk, rfl, rfl⟩⟩
      | false =>
        dsimp only at h
        cases hd1 : readInteger st.cellname r2 with
        | error e => rw [hd1] at h; cases h
        | ok v1 =>
          obtain ⟨dn, r3⟩ := v1
          rw [hd1] at h
          dsimp only at h
          cases hd2 : readInteger st.cellname r3 with
          | error e => rw [hd2] at h; cases h
          | ok v2 =>
            obtain ⟨dv, r4⟩ := v2
            rw [hd2] at h
            dsimp only at h
            cases hes : expectSemi st.cellname r4 with
            | error e => rw [hes] at h; cases h
            | ok r5 =>
              rw [hes] at h
              dsimp only at h
              cases hlk : assocLookup st.cellsById n0.toNat with
              | some ci =>
                rw [hlk] at h
                dsimp only at h
                split at h
                · cases h
                · rename_i out heq
                  cases h
                  refine ⟨n0.toNat, _, r5,
                    { st with cellname := "C" ++ toString n0.toNat,
                              dsCount := st.dsCount + 1,
                              dsIds := st.dsIds ++ [n0.toNat] }, out, ?_, heq, rfl, rfl⟩
                  exact ⟨rfl, rfl, rfl, rfl, rfl, rfl, rfl,
                    Or.inl ⟨by rw [hlk]; rfl, rfl, rfl⟩⟩
              | none =>
                rw [hlk] at h
                dsimp only at h
                split at h
                · cases h
                · rename_i out heq
                  cases h
                  refine ⟨n0.toNat, _, r5,
                    { st with cellname := "C" ++ toString n0.toNat,
                              dsCount := st.dsCount + 1,
                              dsIds := st.dsIds ++ [n0.toNat],
                              cellsById := st.cellsById ++
                                [(n0.toNat, (addCell st.layout ("C" ++ toString n0.toNat)).2)],
                              layout := (addCell st.layout
                                ("C" ++ toString n0.toNat)).1 }, out, ?_, heq, rfl, rfl⟩
                  exact ⟨rfl, rfl, rfl, rfl, rfl, rfl, rfl,
                    Or.inr ⟨hlk, rfl, rfl⟩⟩

theorem assocLookup_some_mem {l : List (ℕ × ℕ)} {n v : ℕ}
    (h : assocLookup l n = some v) : ∃ q ∈ l, q.1 = n ∧ q.2 = v := by
  rw [assocLookup] at h
  cases hf : l.find? (fun p => p.1 = n) with
  | none => rw [hf] at h; cases h
  | some q =>
    rw [hf] at h
    simp only [Option.map_some'] at h
    refine ⟨q, List.mem_of_find?_eq_some hf, ?_, Option.some.inj h⟩
    simpa using List.find?_some hf

theorem MapInv_CStep {top cur : ℕ} {st st1 : RState} (hM : MapInv top st)
    (hC : CurOK top cur st) (hCS : CStep cur st st1) :
    MapInv top st1 ∧ CurOK top cur st1 ∧ StepRel st st1 := by
  have m9 := hM.2.2.2.2.2.2.2.2
  obtain ⟨n, inst, hcn, hnl, hnli, hlm, hdc, hdi, hcr, hcase⟩ := hCS
  rcases hcase with ⟨hsome, hmap, hlay⟩ | ⟨hnone, hmap, hlay⟩
  · have hMA := MapInv_insertInst hM hC inst
    refine ⟨?_, ?_, ?_⟩
    · refine MapInv_transfer hMA (by rw [hlay]) (by rw [hlay]) (by rw [hmap]) ?_ ?_
      · intro x hx
        rw [hdi]
        exact hx
      · intro m hm
        rw [hcr] at hm
        rcases List.mem_append.mp hm with h1 | h1
        · obtain ⟨p, hp, he⟩ := m9 m h1
          exact ⟨p, by rw [hmap]; exact hp, he⟩
        · rw [List.mem_singleton] at h1
          subst h1
          obtain ⟨p, hp, he⟩ := assocLookup_isSome hsome
          exact ⟨p, by rw [hmap]; exact hp, he⟩
    · exact CurOK_mono hC (by rw [hlay]; exact le_refl _)
        ⟨[], by rw [hmap, List.append_nil]⟩ ⟨[], by rw [hdi, List.append_nil]⟩
    · exact StepRel_of_eq hdc.symm.le (by rw [hmap]) (by rw [hdi])
        (by rw [hlay]; exact le_refl _)
        (by rw [hlay]; exact updFirst_length _ _ _)
  · have hMA := MapInv_addCell_entry hM hnone
    have hCA : CurOK top cur { st with
        layout := (addCell st.layout ("C" ++ toString n)).1,
        cellsById := st.cellsById ++ [(n, st.layout.nextCell)] } :=
      CurOK_mono hC (by dsimp only [addCell]; exact Nat.le_succ _)
        ⟨[(n, st.layout.nextCell)], rfl⟩ ⟨[], by rw [List.append_nil]⟩
    have hMB := MapInv_insertInst hMA hCA inst
    refine ⟨?_, ?_, ?_⟩
    · refine MapInv_transfer hMB (by rw [hlay]) (by rw [hlay])
        (by rw [hmap]) ?_ ?_
      · intro x hx
        rw [hdi]
        exact hx
      · intro m hm
        rw [hcr] at hm
        rcases List.mem_append.mp hm with h1 | h1
        · obtain ⟨p, hp, he⟩ := m9 m h1
          exact ⟨p, by rw [hmap]; exact List.mem_append_left _ hp, he⟩
        · rw [List.mem_singleton] at h1
          subst h1
          exact ⟨(m, st.layout.nextCell),
            by rw [hmap]; exact List.mem_append_right _ (List.mem_singleton_self _), rfl⟩
    · exact CurOK_mono hC (by rw [hlay]; exact Nat.le_succ _)
        ⟨[(n, st.layout.nextCell)], hmap⟩ ⟨[], by rw [hdi, List.append_nil]⟩
    · refine ⟨hdc.symm.le, ⟨[(n, st.layout.nextCell)], hmap⟩,
        ⟨[], by rw [hdi, List.append_nil]⟩, by rw [hlay]; exact Nat.le_succ _, ?_⟩
      rw [hlay, hmap]
      have h1 : (insertInst (addCell st.layout ("C" ++ toString n)).1 cur inst).cells.length
          = ((addCell st.layout ("C" ++ toString n)).1).cells.length :=
        updFirst_length _ _ _
      rw [h1]
      dsimp only [addCell]
      rw [List.length_append, List.length_append]
      dsimp only [List.length_cons, List.length_nil]
      omega

theorem MapInv_DStep {top n : ℕ} {st st2 : RState} (hM : MapInv top st)
    (hD : DStep n st st2) :
    MapInv top st2 ∧ CurOK top ((assocLookup st2.cellsById n).getD 0) st2 ∧
      StepRel st st2 := by
  have m7 := hM.2.2.2.2.2.2.1
  have m9 := hM.2.2.2.2.2.2.2.2
  obtain ⟨hcn, hdc, hdi, hcr, hnl, hnli, hlm, hcase⟩ := hD
  rcases hcase with ⟨hsome, hmap, hlay⟩ | ⟨hnone, hmap, hlay⟩
  · obtain ⟨v, hv⟩ := Option.isSome_iff_exists.mp hsome
    obtain ⟨q, hq, hq1, hq2⟩ := assocLookup_some_mem hv
    refine ⟨?_, ?_, ?_⟩
    · refine MapInv_transfer hM (by rw [hlay]) (by rw [hlay]) hmap ?_ ?_
      · intro x hx
        rw [hdi]
        exact List.mem_append_left _ hx
      · intro m hm
        rw [hcr] at hm
        obtain ⟨p, hp, he⟩ := m9 m hm
        exact ⟨p, by rw [hmap]; exact hp, he⟩
    · have hci : (assocLookup st2.cellsById n).getD 0 = q.2 := by
        rw [hmap, hv]
        exact hq2.symm
      rw [hci]
      refine ⟨?_, Or.inr ⟨n, ?_, q, ?_, hq1, rfl⟩⟩
      · rw [hlay]
        exact (m7 q hq).2.1
      · rw [hdi]
        exact List.mem_append_right _ (List.mem_singleton_self _)
      · rw [hmap]
        exact hq
    · exact ⟨le_trans (Nat.le_succ _) hdc.symm.le, ⟨[], by rw [hmap, List.append_nil]⟩,
        ⟨[n], hdi⟩, by rw [hlay], by rw [hlay, hmap]⟩
  · have hMA := MapInv_addCell_entry hM hnone
    refine ⟨?_, ?_, ?_⟩
    · refine MapInv_transfer hMA (by rw [hlay]) (by rw [hlay]) (by rw [hmap]) ?_ ?_
      · intro x hx
        rw [hdi]
        exact List.mem_append_left _ hx
      · intro m hm
        rw [hcr] at hm
        obtain ⟨p, hp, he⟩ := m9 m hm
        exact ⟨p, by rw [hmap]; exact List.mem_append_left _ hp, he⟩
    · have hci : (assocLookup st2.cellsById n).getD 0 = st.layout.nextCell := by
        rw [hmap, assocLookup_append_self _ _ _ hnone]
        rfl
      rw [hci]
      refine ⟨?_, Or.inr ⟨n, ?_, (n, st.layout.nextCell), ?_, rfl, rfl⟩⟩
      · rw [hlay]
        dsimp only [addCell]
        exact Nat.lt_succ_self _
      · rw [hdi]
        exact List.mem_append_right _ (List.mem_singleton_self _)
      · rw [hmap]
        exact List.mem_append_right _ (List.mem_singleton_self _)
    · refine ⟨le_trans (Nat.le_succ _) hdc.symm.le, ⟨[(n, st.layout.nextCell)], hmap⟩,
        ⟨[n], hdi⟩, by rw [hlay]; dsimp only [addCell]; exact Nat.le_succ _, ?_⟩
      rw [hlay, hmap]
      dsimp only [addCell]
      rw [List.length_append, List.length_append]
      dsimp only [List.length_cons, List.length_nil]
      omega

/-! ## The return-flag rule of `read_cell` -/

theorem loop_flag (cfg : Config) : ∀ (fuel : ℕ) (sf : ℚ) (level cur : ℕ)
    (st : RState) (input : List Char) (nx ny dx dy layer pm : ℤ)
    (i s l : ℕ) (out : RunOut),
    readCellLoop cfg fuel sf level cur st input nx ny dx dy layer pm i s l = .ok out →
    out.flag = decide (out.insts > 1 ∨ out.shapes > 0 ∨ out.lspecs > 0) := by
  intro fuel
  induction fuel with
  | zero =>
    intro sf level cur st input nx ny dx dy layer pm i s l out h
    rw [readCellLoop] at h
    cases h
  | succ f ih =>
    intro sf level cur st input nx ny dx dy layer pm i s l out h
    rw [readCellLoop] at h
    dsimp only at h
    cases hg : getCh st.cellname (skipBlanks input) with
    | error e => rw [hg] at h; cases h
    | ok v =>
      obtain ⟨c, rest⟩ := v
      rw [hg] at h
      split at h
      · cases h
      rename_i x2 ct2 r4 heq
      injection heq with hp
      injection hp with he1 he2
      subst he1
      subst he2
      by_cases e1 : c = ';'
      · rw [if_pos e1] at h
        exact ih _ _ _ _ _ _ _ _ _ _ _ _ _ _ _ h
      rw [if_neg e1] at h
      by_cases e2 : c = '('
      · rw [if_pos e2] at h
        exact ih _ _ _ _ _ _ _ _ _ _ _ _ _ _ _ h
      rw [if_neg e2] at h
      by_cases e3 : c = 'E'
      · rw [if_pos e3] at h
        by_cases e3b : level > 0
        · rw [if_pos e3b] at h
          cases h
        · rw [if_neg e3b] at h
          cases h
          rfl
      rw [if_neg e3] at h
      by_cases e4 : c = 'D'
      · rw [if_pos e4] at h
        cases hg2 : getCh st.cellname (skipBlanks rest) with
        | error e => rw [hg2] at h; cases h
        | ok v2 =>
          obtain ⟨c2, rest2⟩ := v2
          rw [hg2] at h
          dsimp only at h
          by_cases e4a : c2 = 'S'
          · rw [if_pos e4a] at h
            cases hds : dsBody
                (fun sf2 ci2 st2 inp2 =>
                  readCellLoop cfg f sf2 (level + 1) ci2 st2 inp2 0 0 0 0 (-2) (-1) 0 0 0)
                sf st rest2 with
            | error p => rw [hds] at h; cases h
            | ok v3 =>
              obtain ⟨st4, rest4⟩ := v3
              rw [hds] at h
              dsimp only at h
              exact ih _ _ _ _ _ _ _ _ _ _ _ _ _ _ _ h
          rw [if_neg e4a] at h
          by_cases e4b : c2 = 'F'
          · rw [if_pos e4b] at h
            by_cases e4c : level = 0
            · rw [if_pos e4c] at h
              cases h
            · rw [if_neg e4c] at h
              cases h
              rfl
          rw [if_neg e4b] at h
          by_cases e4d : c2 = 'D'
          · rw [if_pos e4d] at h
            cases hri : readInteger st.cellname rest2 with
            | error e => rw [hri] at h; cases h
            | ok v3 =>
              obtain ⟨n0, r3⟩ := v3
              rw [hri] at h
              dsimp only at h
              exact ih _ _ _ _ _ _ _ _ _ _ _ _ _ _ _ h
          · rw [if_neg e4d] at h
            cases h
      rw [if_neg e4] at h
      by_cases e5 : c = 'C'
      · rw [if_pos e5] at h
        cases hc : handleC cfg f sf cur st rest nx ny dx dy with
        | error p => rw [hc] at h; cases h
        | ok v2 =>
          obtain ⟨st4, rest4⟩ := v2
          rw [hc] at h
          dsimp only at h
          exact ih _ _ _ _ _ _ _ _ _ _ _ _ _ _ _ h
      rw [if_neg e5] at h
      by_cases e6 : c = 'L'
      · rw [if_pos e6] at h
        cases hl : handleL cfg st rest with
        | error e => rw [hl] at h; cases h
        | ok v2 =>
          obtain ⟨ly, st4, rest4⟩ := v2
          rw [hl] at h
          dsimp only at h
          exact ih _ _ _ _ _ _ _ _ _ _ _ _ _ _ _ h
      rw [if_neg e6] at h
      by_cases e7 : c = 'B'
      · rw [if_pos e7] at h
        cases hb : handleB cfg st.cellname sf layer cur s st.layout rest with
        | error e => rw [hb] at h; cases h
        | ok v2 =>
          obtain ⟨sh4, L4, rest4⟩ := v2
          rw [hb] at h
          dsimp only at h
          exact ih _ _ _ _ _ _ _ _ _ _ _ _ _ _ _ h
      rw [if_neg e7] at h
      by_cases e8 : c = 'P'
      · rw [if_pos e8] at h
        cases hp : handleP st.cellname sf layer cur s f st.layout rest with
        | error e => rw [hp] at h; cases h
        | ok v2 =>
          obtain ⟨sh4, L4, rest4⟩ := v2
          rw [hp] at h
          dsimp only at h
          exact ih _ _ _ _ _ _ _ _ _ _ _ _ _ _ _ h
      rw [if_neg e8] at h
      by_cases e9 : c = 'R'
      · rw [if_pos e9] at h
        cases hr : handleR st.cellname sf layer cur s st.layout rest with
        | error e => rw [hr] at h; cases h
        | ok v2 =>
          obtain ⟨sh4, L4, rest4⟩ := v2
          rw [hr] at h
          dsimp only at h
          exact ih _ _ _ _ _ _ _ _ _ _ _ _ _ _ _ h
      rw [if_neg e9] at h
      by_cases e10 : c = 'W'
      · rw [if_pos e10] at h
        cases hw : handleW cfg st.cellname sf pm layer cur s f st.layout rest with
        | error e => rw [hw] at h; cases h
        | ok v2 =>
          obtain ⟨sh4, L4, rest4⟩ := v2
          rw [hw] at h
          dsimp only at h
          exact ih _ _ _ _ _ _ _ _ _ _ _ _ _ _ _ h
      rw [if_neg e10] at h
      by_cases e11 : isDigitC c = true
      · rw [if_pos e11] at h
        by_cases e12 : (c = '9' && rest.head? == some '3') = true
        · rw [if_pos e12] at h
          cases hg3 : getCh st.cellname rest with
          | error e => rw [hg3] at h; cases h
          | ok v3 =>
            obtain ⟨c3, r1⟩ := v3
            rw [hg3] at h
            dsimp only at h
            cases k1 : readSInteger st.cellname r1 with
            | error e => rw [k1] at h; cases h
            | ok v4 =>
              obtain ⟨a1, r2⟩ := v4
              rw [k1] at h
              dsimp only at h
              cases k2 : readSInteger st.cellname r2 with
              | error e => rw [k2] at h; cases h
              | ok v5 =>
                obtain ⟨a2, r3⟩ := v5
                rw [k2] at h
                dsimp only at h
                cases k3 : readSInteger st.cellname r3 with
                | error e => rw [k3] at h; cases h
                | ok v6 =>
                  obtain ⟨a3, r4b⟩ := v6
                  rw [k3] at h
                  dsimp only at h
                  cases k4 : readSInteger st.cellname r4b with
                  | error e => rw [k4] at h; cases h
                  | ok v7 =>
                    obtain ⟨a4, r5⟩ := v7
                    rw [k4] at h
                    dsimp only at h
                    exact ih _ _ _ _ _ _ _ _ _ _ _ _ _ _ _ h
        rw [if_neg e12] at h
        by_cases e13 : (c = '9' && rest.head? == some '4') = true
        · rw [if_pos e13] at h
          cases hg3 : getCh st.cellname rest with
          | error e => rw [hg3] at h; cases h
          | ok v3 =>
            obtain ⟨c3, r1⟩ := v3
            rw [hg3] at h
            dsimp only at h
            cases k94 : handle94 cfg st.cellname sf layer cur st.layerMap s
                st.layout r1 with
            | error e => rw [k94] at h; cases h
            | ok v4 =>
              obtain ⟨sh4, L4, rest4⟩ := v4
              rw [k94] at h
              dsimp only at h
              exact ih _ _ _ _ _ _ _ _ _ _ _ _ _ _ _ h
        rw [if_neg e13] at h
        by_cases e14 : (c = '9' && rest.head? == some '5') = true
        · rw [if_pos e14] at h
          cases hg3 : getCh st.cellname rest with
          | error e => rw [hg3] at h; cases h
          | ok v3 =>
            obtain ⟨c3, r1⟩ := v3
            rw [hg3] at h
            dsimp only at h
            cases k95 : handle95 st.cellname sf layer cur s st.layout r1 with
            | error e => rw [k95] at h; cases h
            | ok v4 =>
              obtain ⟨sh4, L4, rest4⟩ := v4
              rw [k95] at h
              dsimp only at h
              exact ih _ _ _ _ _ _ _ _ _ _ _ _ _ _ _ h
        rw [if_neg e14] at h
        by_cases e15 : (c = '9' && rest.head? == some '8') = true
        · rw [if_pos e15] at h
          cases hg3 : getCh st.cellname rest with
          | error e => rw [hg3] at h; cases h
          | ok v3 =>
            obtain ⟨c3, r1⟩ := v3
            rw [hg3] at h
            dsimp only at h
            cases hri : readInteger st.cellname r1 with
            | error e => rw [hri] at h; cases h
            | ok v4 =>
              obtain ⟨pm4, r2⟩ := v4
              rw [hri] at h
              dsimp only at h
              exact ih _ _ _ _ _ _ _ _ _ _ _ _ _ _ _ h
        rw [if_neg e15] at h
        by_cases e16 : (c = '9' && !(match rest.head? with
            | some cc => isDigitC cc
            | none => false)) = true
        · rw [if_pos e16] at h
          cases hrs : readStr rest with
          | mk sx r1 =>
            rw [hrs] at h
            dsimp only at h
            exact ih _ _ _ _ _ _ _ _ _ _ _ _ _ _ _ h
        · rw [if_neg e16] at h
          exact ih _ _ _ _ _ _ _ _ _ _ _ _ _ _ _ h
      · rw [if_neg e11] at h
        exact ih _ _ _ _ _ _ _ _ _ _ _ _ _ _ _ h

/-! ## The master induction over the dispatcher -/

theorem MasterOut_comp {top i i2 : ℕ} {st st2 : RState} {out : RunOut}
    (hstep : StepRel st st2) (hi : i ≤ i2)
    (hcond : i2 = i → st.dsCount < st2.dsCount ∨
      (st2.dsCount = st.dsCount ∧
        st2.layout.cells.map CifCell.idx = st.layout.cells.map CifCell.idx))
    (hM : MasterOut top i2 st2 out) : MasterOut top i st out := by
  obtain ⟨hMa, hSb, hic, hcnd⟩ := hM
  refine ⟨hMa, StepRel_trans hstep hSb, le_trans hi hic, ?_⟩
  rintro ⟨hins, hdsc⟩
  have hi2 : i2 = i := by omega
  rcases hcond hi2 with hlt | ⟨hde, hme⟩
  · have hd2 := hSb.1
    omega
  · rw [hcnd ⟨by omega, by omega⟩, hme]

theorem shape_branch {top cur : ℕ} {st : RState} {L4 : Layout}
    (hM : MapInv top st) (hC : CurOK top cur st)
    (hd : L4 = st.layout ∨ ∃ sp, L4 = insertShape st.layout cur sp) :
    MapInv top { st with layout := L4 } ∧ CurOK top cur { st with layout := L4 } ∧
      StepRel st { st with layout := L4 } ∧
      ({ st with layout := L4 } : RState).layout.cells.map CifCell.idx
        = st.layout.cells.map CifCell.idx := by
  rcases hd with h | ⟨sp, h⟩
  · subst h
    exact ⟨hM, hC, StepRel_refl st, rfl⟩
  · subst h
    refine ⟨MapInv_insertShape hM hC sp, ?_, ?_, ?_⟩
    · exact CurOK_mono hC (le_refl _) ⟨[], by simp⟩ ⟨[], by simp⟩
    · exact StepRel_of_eq (le_refl _) rfl rfl (le_refl _) (updFirst_length _ _ _)
    · show (updFirst (fun c => c.idx == cur)
          (fun c => { c with shapes := c.shapes ++ [sp] }) st.layout.cells).map
            CifCell.idx = st.layout.cells.map CifCell.idx
      exact updFirst_map (fun c => c.idx == cur)
        (fun c => { c with shapes := c.shapes ++ [sp] }) CifCell.idx
        (fun _ => rfl) st.layout.cells

theorem loop_master (cfg : Config) (top : ℕ) : ∀ (fuel : ℕ) (sf : ℚ)
    (level cur : ℕ) (st : RState) (input : List Char)
    (nx ny dx dy layer pm : ℤ) (i s l : ℕ) (out : RunOut),
    readCellLoop cfg fuel sf level cur st input nx ny dx dy layer pm i s l = .ok out →
    MapInv top st → CurOK top cur st →
    MasterOut top i st out := by
  intro fuel
  induction fuel with
  | zero =>
    intro sf level cur st input nx ny dx dy layer pm i s l out h hM hC
    rw [readCellLoop] at h
    cases h
  | succ f ih =>
    intro sf level cur st input nx ny dx dy layer pm i s l out h hM hC
    rw [readCellLoop] at h
    dsimp only at h
    cases hg : getCh st.cellname (skipBlanks input) with
    | error e => rw [hg] at h; cases h
    | ok v =>
      obtain ⟨c, rest⟩ := v
      rw [hg] at h
      split at h
      · cases h
      rename_i x2 ct2 r4 heq
      injection heq with hp
      injection hp with he1 he2
      subst he1
      subst he2
      by_cases e1 : c = ';'
      · rw [if_pos e1] at h
        exact ih _ _ _ _ _ _ _ _ _ _ _ _ _ _ _ h hM hC
      rw [if_neg e1] at h
      by_cases e2 : c = '('
      · rw [if_pos e2] at h
        exact ih _ _ _ _ _ _ _ _ _ _ _ _ _ _ _ h hM hC
      rw [if_neg e2] at h
      by_cases e3 : c = 'E'
      · rw [if_pos e3] at h
        by_cases e3b : level > 0
        · rw [if_pos e3b] at h
          cases h
        · rw [if_neg e3b] at h
          cases h
          exact ⟨hM, StepRel_refl st, le_refl i, fun _ => rfl⟩
      rw [if_neg e3] at h
      by_cases e4 : c = 'D'
      · rw [if_pos e4] at h
        cases hg2 : getCh st.cellname (skipBlanks rest) with
        | error e => rw [hg2] at h; cases h
        | ok v2 =>
          obtain ⟨c2, rest2⟩ := v2
          rw [hg2] at h
          dsimp only at h
          by_cases e4a : c2 = 'S'
          · rw [if_pos e4a] at h
            cases hds : dsBody
                (fun sf2 ci2 st2 inp2 =>
                  readCellLoop cfg f sf2 (level + 1) ci2 st2 inp2 0 0 0 0 (-2) (-1) 0 0 0)
                sf st rest2 with
            | error p => rw [hds] at h; cases h
            | ok v3 =>
              obtain ⟨st4, rest4⟩ := v3
              rw [hds] at h
              dsimp only at h
              obtain ⟨n, sf2, inp2, st2, out1, hDS, hrec, hst4, hrest4⟩ :=
                dsBody_effect hds
              obtain ⟨hM2, hC2, hS2⟩ := MapInv_DStep hM hDS
              have M1 := ih _ _ _ _ _ _ _ _ _ _ _ _ _ _ _ hrec hM2 hC2
              subst hst4
              subst hrest4
              have hSfull : StepRel st out1.st := StepRel_trans hS2 M1.2.1
              have hM4 : MapInv top { out1.st with cellname := st.cellname } := M1.1
              have hC4 : CurOK top cur { out1.st with cellname := st.cellname } :=
                CurOK_mono hC hSfull.2.2.2.1 hSfull.2.1 hSfull.2.2.1
              have M2 := ih _ _ _ _ _ _ _ _ _ _ _ _ _ _ _ h hM4 hC4
              refine MasterOut_comp ?_ (le_refl i) ?_ M2
              · exact hSfull
              · intro hii
                refine Or.inl ?_
                show st.dsCount < out1.st.dsCount
                have h1 := hDS.2.1
                have h2 := M1.2.1.1
                omega
          rw [if_neg e4a] at h
          by_cases e4b : c2 = 'F'
          · rw [if_pos e4b] at h
            by_cases e4c : level = 0
            · rw [if_pos e4c] at h
              cases h
            · rw [if_neg e4c] at h
              cases h
              exact ⟨hM, StepRel_refl st, le_refl i, fun _ => rfl⟩
          rw [if_neg e4b] at h
          by_cases e4d : c2 = 'D'
          · rw [if_pos e4d] at h
            cases hri : readInteger st.cellname rest2 with
            | error e => rw [hri] at h; cases h
            | ok v3 =>
              obtain ⟨n0, r3⟩ := v3
              rw [hri] at h
              dsimp only at h
              exact ih _ _ _ _ _ _ _ _ _ _ _ _ _ _ _ h hM hC
          · rw [if_neg e4d] at h
            cases h
      rw [if_neg e4] at h
      by_cases e5 : c = 'C'
      · rw [if_pos e5] at h
        cases hc : handleC cfg f sf cur st rest nx ny dx dy with
        | error p => rw [hc] at h; cases h
        | ok v2 =>
          obtain ⟨st4, rest4⟩ := v2
          rw [hc] at h
          dsimp only at h
          obtain ⟨hM4, hC4, hS4⟩ := MapInv_CStep hM hC (handleC_effect hc)
          refine MasterOut_comp hS4 (Nat.le_succ i) (fun hii => absurd hii (by omega))
            (ih _ _ _ _ _ _ _ _ _ _ _ _ _ _ _ h hM4 hC4)
      rw [if_neg e5] at h
      by_cases e6 : c = 'L'
      · rw [if_pos e6] at h
        cases hl : handleL cfg st rest with
        | error e => rw [hl] at h; cases h
        | ok v2 =>
          obtain ⟨ly, st4, rest4⟩ := v2
          rw [hl] at h
          dsimp only at h
          obtain ⟨f1, f2, f3, f4, f5, f6, f7⟩ := handleL_eff hl
          have m9 := hM.2.2.2.2.2.2.2.2
          have hM4 : MapInv top st4 := MapInv_transfer hM f6 f7 f1
            (fun x hx => by rw [f2]; exact hx)
            (fun m hm => by
              rw [f3] at hm
              obtain ⟨p, hp, he⟩ := m9 m hm
              exact ⟨p, by rw [f1]; exact hp, he⟩)
          have hC4 : CurOK top cur st4 := CurOK_mono hC (le_of_eq f7.symm)
            ⟨[], by rw [f1, List.append_nil]⟩ ⟨[], by rw [f2, List.append_nil]⟩
          refine MasterOut_comp (StepRel_of_eq (le_of_eq f4.symm) f1 f2
              (le_of_eq f7.symm) (congrArg List.length f6)) (le_refl i)
            (fun _ => Or.inr ⟨f4, congrArg (List.map CifCell.idx) f6⟩)
            (ih _ _ _ _ _ _ _ _ _ _ _ _ _ _ _ h hM4 hC4)
      rw [if_neg e6] at h
      by_cases e7 : c = 'B'
      · rw [if_pos e7] at h
        cases hb : handleB cfg st.cellname sf layer cur s st.layout rest with
        | error e => rw [hb] at h; cases h
        | ok v2 =>
          obtain ⟨sh4, L4, rest4⟩ := v2
          rw [hb] at h
          dsimp only at h
          obtain ⟨hM4, hC4, hS4, hmap4⟩ := shape_branch hM hC (handleB_eff hb).2
          exact MasterOut_comp hS4 (le_refl i) (fun _ => Or.inr ⟨rfl, hmap4⟩)
            (ih _ _ _ _ _ _ _ _ _ _ _ _ _ _ _ h hM4 hC4)
      rw [if_neg e7] at h
      by_cases e8 : c = 'P'
      · rw [if_pos e8] at h
        cases hp : handleP st.cellname sf layer cur s f st.layout rest with
        | error e => rw [hp] at h; cases h
        | ok v2 =>
          obtain ⟨sh4, L4, rest4⟩ := v2
          rw [hp] at h
          dsimp only at h
          obtain ⟨hM4, hC4, hS4, hmap4⟩ := shape_branch hM hC (handleP_eff hp).2
          exact MasterOut_comp hS4 (le_refl i) (fun _ => Or.inr ⟨rfl, hmap4⟩)
            (ih _ _ _ _ _ _ _ _ _ _ _ _ _ _ _ h hM4 hC4)
      rw [if_neg e8] at h
      by_cases e9 : c = 'R'
      · rw [if_pos e9] at h
        cases hr : handleR st.cellname sf layer cur s st.layout rest with
        | error e => rw [hr] at h; cases h
        | ok v2 =>
          obtain ⟨sh4, L4, rest4⟩ := v2
          rw [hr] at h
          dsimp only at h
          obtain ⟨hM4, hC4, hS4, hmap4⟩ := shape_branch hM hC (handleR_eff hr).2
          exact MasterOut_comp hS4 (le_refl i) (fun _ => Or.inr ⟨rfl, hmap4⟩)
            (ih _ _ _ _ _ _ _ _ _ _ _ _ _ _ _ h hM4 hC4)
      rw [if_neg e9] at h
      by_cases e10 : c = 'W'
      · rw [if_pos e10] at h
        cases hw : handleW cfg st.cellname sf pm layer cur s f st.layout rest with
        | error e => rw [hw] at h; cases h
        | ok v2 =>
          obtain ⟨sh4, L4, rest4⟩ := v2
          rw [hw] at h
          dsimp only at h
          obtain ⟨hM4, hC4, hS4, hmap4⟩ := shape_branch hM hC (handleW_eff hw).2
          exact MasterOut_comp hS4 (le_refl i) (fun _ => Or.inr ⟨rfl, hmap4⟩)
            (ih _ _ _ _ _ _ _ _ _ _ _ _ _ _ _ h hM4 hC4)
      rw [if_neg e10] at h
      by_cases e11 : isDigitC c = true
      · rw [if_pos e11] at h
        by_cases e12 : (c = '9' && rest.head? == some '3') = true
        · rw [if_pos e12] at h
          cases hg3 : getCh st.cellname rest with
          | error e => rw [hg3] at h; cases h
          | ok v3 =>
            obtain ⟨c3, r1⟩ := v3
            rw [hg3] at h
            dsimp only at h
            cases k1 : readSInteger st.cellname r1 with
            | error e => rw [k1] at h; cases h
            | ok v4 =>
              obtain ⟨a1, r2⟩ := v4
              rw [k1] at h
              dsimp only at h
              cases k2 : readSInteger st.cellname r2 with
              | error e => rw [k2] at h; cases h
              | ok v5 =>
                obtain ⟨a2, r3⟩ := v5
                rw [k2] at h
                dsimp only at h
                cases k3 : readSInteger st.cellname r3 with
                | error e => rw [k3] at h; cases h
                | ok v6 =>
                  obtain ⟨a3, r4b⟩ := v6
                  rw [k3] at h
                  dsimp only at h
                  cases k4 : readSInteger st.cellname r4b with
                  | error e => rw [k4] at h; cases h
                  | ok v7 =>
                    obtain ⟨a4, r5⟩ := v7
                    rw [k4] at h
                    dsimp only at h
                    exact ih _ _ _ _ _ _ _ _ _ _ _ _ _ _ _ h hM hC
        rw [if_neg e12] at h
        by_cases e13 : (c = '9' && rest.head? == some '4') = true
        · rw [if_pos e13] at h
          cases hg3 : getCh st.cellname rest with
          | error e => rw [hg3] at h; cases h
          | ok v3 =>
            obtain ⟨c3, r1⟩ := v3
            rw [hg3] at h
            dsimp only at h
            cases k94 : handle94 cfg st.cellname sf layer cur st.layerMap s
                st.layout r1 with
            | error e => rw [k94] at h; cases h
            | ok v4 =>
              obtain ⟨sh4, L4, rest4⟩ := v4
              rw [k94] at h
              dsimp only at h
              obtain ⟨hM4, hC4, hS4, hmap4⟩ := shape_branch hM hC (handle94_eff k94).2
              exact MasterOut_comp hS4 (le_refl i) (fun _ => Or.inr ⟨rfl, hmap4⟩)
                (ih _ _ _ _ _ _ _ _ _ _ _ _ _ _ _ h hM4 hC4)
        rw [if_neg e13] at h
        by_cases e14 : (c = '9' && rest.head? == some '5') = true
        · rw [if_pos e14] at h
          cases hg3 : getCh st.cellname rest with
          | error e => rw [hg3] at h; cases h
          | ok v3 =>
            obtain ⟨c3, r1⟩ := v3
            rw [hg3] at h
            dsimp only at h
            cases k95 : handle95 st.cellname sf layer cur s st.layout r1 with
            | error e => rw [k95] at h; cases h
            | ok v4 =>
              obtain ⟨sh4, L4, rest4⟩ := v4
              rw [k95] at h
              dsimp only at h
              obtain ⟨hM4, hC4, hS4, hmap4⟩ := shape_branch hM hC (handle95_eff k95).2
              exact MasterOut_comp hS4 (le_refl i) (fun _ => Or.inr ⟨rfl, hmap4⟩)
                (ih _ _ _ _ _ _ _ _ _ _ _ _ _ _ _ h hM4 hC4)
        rw [if_neg e14] at h
        by_cases e15 : (c = '9' && rest.head? == some '8') = true
        · rw [if_pos e15] at h
          cases hg3 : getCh st.cellname rest with
          | error e => rw [hg3] at h; cases h
          | ok v3 =>
            obtain ⟨c3, r1⟩ := v3
            rw [hg3] at h
            dsimp only at h
            cases hri : readInteger st.cellname r1 with
            | error e => rw [hri] at h; cases h
            | ok v4 =>
              obtain ⟨pm4, r2⟩ := v4
              rw [hri] at h
              dsimp only at h
              exact ih _ _ _ _ _ _ _ _ _ _ _ _ _ _ _ h hM hC
        rw [if_neg e15] at h
        by_cases e16 : (c = '9' && !(match rest.head? with
            | some cc => isDigitC cc
            | none => false)) = true
        · rw [if_pos e16] at h
          cases hrs : readStr rest with
          | mk sx r1 =>
            rw [hrs] at h
            dsimp only at h
            have hM4 : MapInv top { st with
                cellname := uniquifyCellName st.layout sx,
                layout := renameCell st.layout cur (uniquifyCellName st.layout sx) } :=
              MapInv_renameCell hM hC _
            have hC4 : CurOK top cur { st with
                cellname := uniquifyCellName st.layout sx,
                layout := renameCell st.layout cur (uniquifyCellName st.layout sx) } :=
              CurOK_mono hC (le_refl _) ⟨[], by simp⟩ ⟨[], by simp⟩
            have hS4 : StepRel st { st with
                cellname := uniquifyCellName st.layout sx,
                layout := renameCell st.layout cur (uniquifyCellName st.layout sx) } :=
              StepRel_of_eq (le_refl _) rfl rfl (le_refl _) (updFirst_length _ _ _)
            have hmap4 : ({ st with
                cellname := uniquifyCellName st.layout sx,
                layout := renameCell st.layout cur (uniquifyCellName st.layout sx) } :
                  RState).layout.cells.map CifCell.idx
                = st.layout.cells.map CifCell.idx := by
              show (updFirst (fun c => c.idx == cur)
                  (fun c => { c with name := uniquifyCellName st.layout sx })
                  st.layout.cells).map CifCell.idx = st.layout.cells.map CifCell.idx
              exact updFirst_map (fun c => c.idx == cur)
                (fun c => { c with name := uniquifyCellName st.layout sx }) CifCell.idx
                (fun _ => rfl) st.layout.cells
            exact MasterOut_comp hS4 (le_refl i)
              (fun _ => Or.inr ⟨rfl, hmap4⟩)
              (ih _ _ _ _ _ _ _ _ _ _ _ _ _ _ _ h hM4 hC4)
        · rw [if_neg e16] at h
          exact ih _ _ _ _ _ _ _ _ _ _ _ _ _ _ _ h hM hC
      · rw [if_neg e11] at h
        exact ih _ _ _ _ _ _ _ _ _ _ _ _ _ _ _ h hM hC

/-! ## Driver lemmas: finalization, top-cell handling, name uniquification -/

theorem foldl_setLayerProps_cells (assigns : List (ℕ × LayerProps)) (L : Layout) :
    (assigns.foldl (fun L2 p => setLayerProps L2 p.1 p.2) L).cells = L.cells := by
  induction assigns generalizing L with
  | nil => rfl
  | cons a as ihs =>
    rw [List.foldl_cons, ihs]
    rfl

theorem foldl_append_len_mono (l : List String) (init : String) :
    init.length ≤ (l.foldl (fun a b => a ++ b) init).length := by
  induction l generalizing init with
  | nil => exact le_refl _
  | cons x xs ihx =>
    rw [List.foldl_cons]
    refine le_trans ?_ (ihx (init ++ x))
    rw [String.length_append]
    omega

theorem mem_foldl_append_le {n : String} {l : List String} (init : String)
    (h : n ∈ l) : n.length ≤ (l.foldl (fun a b => a ++ b) init).length := by
  induction l generalizing init with
  | nil => cases h
  | cons x xs ihx =>
    rw [List.foldl_cons]
    rcases List.mem_cons.mp h with h1 | h1
    · refine le_trans ?_ (foldl_append_len_mono xs (init ++ x))
      rw [String.length_append, h1]
      omega
    · exact ihx _ h1

theorem uniquify_fresh (L : Layout) (b : String) :
    uniquifyCellName L b ∉ namesOf L := by
  unfold uniquifyCellName
  split
  · next hfree => exact hfree
  · next hfree =>
    split
    · next k hk =>
      have hp := List.find?_some hk
      simpa using hp
    · next hnone =>
      intro hmem
      have h2 : (b ++ "$" ++ String.join (namesOf L)).length
          ≤ (String.join (namesOf L)).length := mem_foldl_append_le "" hmem
      rw [String.length_append, String.length_append] at h2
      have h3 : ("$" : String).length = 1 := rfl
      omega

theorem uniquify_prefix (L : Layout) (b : String) :
    ∃ suff, uniquifyCellName L b = b ++ suff := by
  unfold uniquifyCellName
  split
  · exact ⟨"", (String.append_empty b).symm⟩
  · split
    · next k hk => exact ⟨"$" ++ toString (k + 1), by rw [String.append_assoc]⟩
    · exact ⟨"$" ++ String.join (namesOf L), by rw [String.append_assoc]⟩

theorem cells_of_map_single {cells : List CifCell} {t : ℕ}
    (h : cells.map CifCell.idx = [t]) : ∃ c, cells = [c] ∧ c.idx = t := by
  cases cells with
  | nil => cases h
  | cons c cs =>
    rw [List.map_cons] at h
    injection h with h1 h2
    cases cs with
    | nil => exact ⟨c, rfl, h1⟩
    | cons d ds => rw [List.map_cons] at h2; cases h2

theorem filter_ne_length {l : List CifCell} {t : ℕ}
    (hnd : (l.map CifCell.idx).Nodup) (hex : ∃ c ∈ l, c.idx = t) :
    (l.filter fun c => c.idx ≠ t).length + 1 = l.length := by
  induction l with
  | nil =>
    obtain ⟨c, hc, _⟩ := hex
    cases hc
  | cons c cs ihl =>
    rw [List.map_cons, List.nodup_cons] at hnd
    by_cases hct : c.idx = t
    · rw [List.filter_cons_of_neg (by simp [hct])]
      rw [List.filter_eq_self.mpr ?_]
      · simp
      · intro d hd
        have hne : d.idx ≠ t := by
          intro he
          exact hnd.1 (List.mem_map.mpr ⟨d, hd, by rw [he, hct]⟩)
        simpa using hne
    · rw [List.filter_cons_of_pos (by simp [hct])]
      obtain ⟨d, hd, hdt⟩ := hex
      rcases List.mem_cons.mp hd with h1 | h1
      · rw [h1] at hdt
        exact absurd hdt hct
      · have hh := ihl hnd.2 ⟨d, h1, hdt⟩
        rw [List.length_cons, List.length_cons]
        omega

theorem doRead_elim {cfg : Config} {fuel : ℕ} {L0 : Layout} {input : List Char}
    {out : DriveOut} (h : doRead cfg fuel L0 input = .ok out) :
    ∃ out0 : RunOut,
      readCellFrom cfg fuel ((1 / 100) / cfg.dbu) 0 L0.nextCell
        { cellname := "\x7bCIF top level\x7d", cellsById := [], newLayers := [],
          nextLayerIndex := cfg.layerMap.nextIndex, layerMap := cfg.layerMap,
          layout := (addCell { L0 with dbuVal := cfg.dbu } "").1,
          dsCount := 0, dsIds := [], cRefs := [] } input = .ok out0 ∧
      out.flag = out0.flag ∧ out.insts = out0.insts ∧ out.shapes = out0.shapes ∧
      out.lspecs = out0.lspecs ∧ out.topIdx = L0.nextCell ∧
      out.st.cellsById = out0.st.cellsById ∧ out.st.dsIds = out0.st.dsIds ∧
      out.st.cRefs = out0.st.cRefs ∧ out.st.dsCount = out0.st.dsCount ∧
      (out0.flag = true →
        out.st.layout.cells = (renameCell out0.st.layout L0.nextCell
          (uniquifyCellName out0.st.layout "CIF_TOP")).cells ∧
        out.topName = some (uniquifyCellName out0.st.layout "CIF_TOP") ∧
        out.topNameFresh = decide (uniquifyCellName out0.st.layout "CIF_TOP"
          ∉ namesOf out0.st.layout)) ∧
      (out0.flag = false →
        out.st.layout.cells = (removeCell out0.st.layout L0.nextCell).cells ∧
        out.topName = none ∧ out.topNameFresh = true) := by
  unfold doRead at h
  dsimp only at h
  split at h
  · cases h
  · rename_i out0 heq
    cases h
    refine ⟨out0, heq, rfl, rfl, rfl, rfl, rfl,
      by dsimp only; split <;> split <;> rfl,
      by dsimp only; split <;> split <;> rfl,
      by dsimp only; split <;> split <;> rfl,
      by dsimp only; split <;> split <;> rfl, ?_, ?_⟩
    · intro hf
      refine ⟨?_, ?_, ?_⟩
      · dsimp only
        split
        · split
          · rw [foldl_setLayerProps_cells]
            rfl
          · rfl
        · rename_i hne
          exact absurd hf hne
      · dsimp only
        split
        · rfl
        · rename_i hne
          exact absurd hf hne
      · dsimp only
        split
        · rfl
        · rename_i hne
          exact absurd hf hne
    · intro hf
      refine ⟨?_, ?_, ?_⟩
      · dsimp only
        split
        · rename_i htr
          rw [hf] at htr
          cases htr
        · split
          · rw [foldl_setLayerProps_cells]
            rfl
          · rfl
      · dsimp only
        split
        · rename_i htr
          rw [hf] at htr
          cases htr
        · rfl
      · dsimp only
        split
        · rename_i htr
          rw [hf] at htr
          cases htr
        · rfl

theorem start_invariant (cfg : Config) :
    MapInv 0
      { cellname := "\x7bCIF top level\x7d", cellsById := [], newLayers := [],
        nextLayerIndex := cfg.layerMap.nextIndex, layerMap := cfg.layerMap,
        layout := (addCell { emptyLayout with dbuVal := cfg.dbu } "").1,
        dsCount := 0, dsIds := [], cRefs := [] } ∧
    CurOK 0 0
      { cellname := "\x7bCIF top level\x7d", cellsById := [], newLayers := [],
        nextLayerIndex := cfg.layerMap.nextIndex, layerMap := cfg.layerMap,
        layout := (addCell { emptyLayout with dbuVal := cfg.dbu } "").1,
        dsCount := 0, dsIds := [], cRefs := [] } := by
  refine ⟨?_, ?_⟩ <;> simp [MapInv, CurOK, addCell, emptyLayout]

/-- Claim C4: (1) a cell read by the dispatcher is reported non-empty
exactly when its instance count exceeds one, or a shape command or a
layer-selection command was seen; (2) the driver deletes the synthetic
top cell exactly when the run is empty by this rule, and otherwise
renames it to a fresh name derived from `CIF_TOP`; (3) hence a run from
the empty layout that processes no `C` and no `DS` command leaves
exactly one cell when a shape or `L` command was counted, and zero cells
otherwise. -/
theorem claim_C4 :
    (∀ (cfg : Config) (fuel : ℕ) (sf : ℚ) (level cur : ℕ) (st : RState)
      (input : List Char) (nx ny dx dy layer pm : ℤ) (i s l : ℕ) (out : RunOut),
      readCellLoop cfg fuel sf level cur st input nx ny dx dy layer pm i s l
        = .ok out →
      out.flag = decide (out.insts > 1 ∨ out.shapes > 0 ∨ out.lspecs > 0)) ∧
    (∀ (cfg : Config) (fuel : ℕ) (L0 : Layout) (input : List Char) (out : DriveOut),
      doRead cfg fuel L0 input = .ok out →
      (out.topName = none ↔ out.flag = false) ∧
      (out.flag = false → ∀ c ∈ out.st.layout.cells, c.idx ≠ out.topIdx) ∧
      (out.flag = true → ∃ nm suff, out.topName = some nm ∧
        nm = "CIF_TOP" ++ suff ∧ out.topNameFresh = true)) ∧
    (∀ (cfg : Config) (fuel : ℕ) (input : List Char) (out : DriveOut),
      doRead cfg fuel emptyLayout input = .ok out →
      out.insts = 0 → out.st.dsCount = 0 →
      out.st.layout.cells.length
        = if out.shapes > 0 ∨ out.lspecs > 0 then 1 else 0) := by
  refine ⟨loop_flag, ?_, ?_⟩
  · intro cfg fuel L0 input out h
    obtain ⟨out0, heq, hfl, hin, hsh, hls, hti, hmap, hdsi, hcr, hdc, htru, hfls⟩ :=
      doRead_elim h
    refine ⟨?_, ?_, ?_⟩
    · cases hb : out0.flag with
      | false =>
        obtain ⟨hcells, hnm, hfr⟩ := hfls hb
        rw [hnm, hfl, hb]
        simp
      | true =>
        obtain ⟨hcells, hnm, hfr⟩ := htru hb
        rw [hnm, hfl, hb]
        simp
    · intro hf c hc
      have hb : out0.flag = false := by rw [← hfl]; exact hf
      obtain ⟨hcells, hnm, hfr⟩ := hfls hb
      rw [hcells] at hc
      rw [hti]
      have hft := List.of_mem_filter hc
      simpa using hft
    · intro hf
      have hb : out0.flag = true := by rw [← hfl]; exact hf
      obtain ⟨hcells, hnm, hfr⟩ := htru hb
      obtain ⟨suff, hsf⟩ := uniquify_prefix out0.st.layout "CIF_TOP"
      refine ⟨uniquifyCellName out0.st.layout "CIF_TOP", suff, hnm, hsf, ?_⟩
      rw [hfr]
      exact decide_eq_true (uniquify_fresh _ _)
  · intro cfg fuel input out h hi hd
    obtain ⟨out0, heq, hfl, hin, hsh, hls, hti, hmap, hdsi, hcr, hdc, htru, hfls⟩ :=
      doRead_elim h
    have hstart := start_invariant cfg
    unfold readCellFrom at heq
    obtain ⟨hMf, hSf, hif, hcondf⟩ :=
      loop_master cfg 0 fuel _ _ _ _ _ _ _ _ _ _ _ _ _ _ _ heq hstart.1 hstart.2
    have hi0 : out0.insts = 0 := by rw [← hin]; exact hi
    have hd0 : out0.st.dsCount = 0 := by rw [← hdc]; exact hd
    have hm0 : out0.st.layout.cells.map CifCell.idx = [0] := hcondf ⟨hi0, hd0⟩
    obtain ⟨c0, hc0, hc0idx⟩ := cells_of_map_single hm0
    have hflag := loop_flag cfg fuel _ _ _ _ _ _ _ _ _ _ _ _ _ _ _ heq
    cases hb : out0.flag with
    | true =>
      obtain ⟨hcells, hnm, hfr⟩ := htru hb
      have hcond : out0.shapes > 0 ∨ out0.lspecs > 0 := by
        rw [hb] at hflag
        have h2 := of_decide_eq_true hflag.symm
        rcases h2 with h3 | h3
        · omega
        · exact h3
      rw [hcells, hsh, hls, if_pos hcond]
      have h1 : (renameCell out0.st.layout emptyLayout.nextCell
          (uniquifyCellName out0.st.layout "CIF_TOP")).cells.length
          = out0.st.layout.cells.length := updFirst_length _ _ _
      rw [h1, hc0]
      rfl
    | false =>
      obtain ⟨hcells, hnm, hfr⟩ := hfls hb
      have hcond : ¬(out0.shapes > 0 ∨ out0.lspecs > 0) := by
        rw [hb] at hflag
        intro hcon
        exact of_decide_eq_false hflag.symm (Or.inr hcon)
      rw [hcells, hsh, hls, if_neg hcond]
      show (out0.st.layout.cells.filter fun c => c.idx ≠ emptyLayout.nextCell).length = 0
      rw [hc0]
      simp [hc0idx, emptyLayout]

/-- Witness for claim C4 at the input `B 1 1 0 0;E`: the flag rule and
the one-cell rule evaluated at the concrete run. -/
theorem claim_C4_witness :
    ∃ out, doRead cfgEx 6 emptyLayout ("B 1 1 0 0;E".toList) = .ok out ∧
      (out.topName = none ↔ out.flag = false) ∧
      out.insts = 0 ∧ out.st.dsCount = 0 ∧
      out.st.layout.cells.length
        = if out.shapes > 0 ∨ out.lspecs > 0 then 1 else 0 := by
  have key : ∃ out, doRead cfgEx 6 emptyLayout ("B 1 1 0 0;E".toList) = .ok out ∧
      out.insts = 0 ∧ out.st.dsCount = 0 := ⟨_, rfl, rfl, rfl⟩
  obtain ⟨out, hout, hi, hd⟩ := key
  exact ⟨out, hout, (claim_C4.2.1 cfgEx 6 emptyLayout _ out hout).1, hi, hd,
    claim_C4.2.2 cfgEx 6 _ out hout hi hd⟩

/-- Claim C7: over any successful whole-file read from the empty layout,
every cell id referenced by a `C` command has a `cellsById` entry; every
entry owns a layout cell; an id never defined by `DS` still owns a
pristine empty cell named `C<id>`; ids and cell indices are stored at
most once (a later `DS` reuses the cell a `C` reference allocated
instead of creating a second one); and the layout holds exactly one cell
per entry plus the kept top cell. -/
theorem claim_C7 :
    ∀ (cfg : Config) (fuel : ℕ) (input : List Char) (out : DriveOut),
      doRead cfg fuel emptyLayout input = .ok out →
      (∀ n ∈ out.st.cRefs, ∃ p ∈ out.st.cellsById, p.1 = n) ∧
      (∀ p ∈ out.st.cellsById, ∃ c ∈ out.st.layout.cells, c.idx = p.2) ∧
      (∀ p ∈ out.st.cellsById, p.1 ∉ out.st.dsIds →
        ∃ c ∈ out.st.layout.cells, c.idx = p.2 ∧ c.name = "C" ++ toString p.1 ∧
          c.shapes = [] ∧ c.insts = []) ∧
      (out.st.cellsById.map Prod.fst).Nodup ∧
      (out.st.cellsById.map Prod.snd).Nodup ∧
      out.st.layout.cells.length
        = out.st.cellsById.length + (if out.flag then 1 else 0) := by
  intro cfg fuel input out h
  obtain ⟨out0, heq, hfl, hin, hsh, hls, hti, hmap, hdsi, hcr, hdc, htru, hfls⟩ :=
    doRead_elim h
  have hstart := start_invariant cfg
  unfold readCellFrom at heq
  obtain ⟨hMf, hSf, hif, hcondf⟩ :=
    loop_master cfg 0 fuel _ _ _ _ _ _ _ _ _ _ _ _ _ _ _ heq hstart.1 hstart.2
  obtain ⟨m1, m2, m3, m4, m5, m6, m7, m8, m9⟩ := hMf
  have hlen : out0.st.layout.cells.length = out0.st.cellsById.length + 1 := by
    have h2 := hSf.2.2.2.2
    simp [addCell, emptyLayout] at h2
    omega
  cases hb : out0.flag with
  | true =>
    obtain ⟨hcells, hnm, hfr⟩ := htru hb
    refine ⟨?_, ?_, ?_, ?_, ?_, ?_⟩
    · intro n hn
      rw [hcr] at hn
      obtain ⟨p, hp, he⟩ := m9 n hn
      exact ⟨p, by rw [hmap]; exact hp, he⟩
    · intro p hp
      rw [hmap] at hp
      obtain ⟨hne, hlt, c, hc, hcidx⟩ := m7 p hp
      refine ⟨c, ?_, hcidx⟩
      rw [hcells]
      apply updFirst_mem_of_not hc
      simp only [beq_eq_false_iff_ne, ne_eq]
      rw [hcidx]
      exact hne
    · intro p hp hnd
      rw [hmap] at hp
      rw [hdsi] at hnd
      obtain ⟨c, hc, hcidx, hcn, hcs, hci⟩ := m8 p hp hnd
      refine ⟨c, ?_, hcidx, hcn, hcs, hci⟩
      rw [hcells]
      apply updFirst_mem_of_not hc
      simp only [beq_eq_false_iff_ne, ne_eq]
      rw [hcidx]
      exact (m7 p hp).1
    · rw [hmap]
      exact m5
    · rw [hmap]
      exact m6
    · rw [hcells, hmap, hfl, hb, if_pos rfl]
      have h1 : (renameCell out0.st.layout emptyLayout.nextCell
          (uniquifyCellName out0.st.layout "CIF_TOP")).cells.length
          = out0.st.layout.cells.length := updFirst_length _ _ _
      rw [h1, hlen]
  | false =>
    obtain ⟨hcells, hnm, hfr⟩ := hfls hb
    refine ⟨?_, ?_, ?_, ?_, ?_, ?_⟩
    · intro n hn
      rw [hcr] at hn
      obtain ⟨p, hp, he⟩ := m9 n hn
      exact ⟨p, by rw [hmap]; exact hp, he⟩
    · intro p hp
      rw [hmap] at hp
      obtain ⟨hne, hlt, c, hc, hcidx⟩ := m7 p hp
      refine ⟨c, ?_, hcidx⟩
      rw [hcells]
      exact List.mem_filter.mpr ⟨hc, decide_eq_true (by rw [hcidx]; exact hne)⟩
    · intro p hp hnd
      rw [hmap] at hp
      rw [hdsi] at hnd
      obtain ⟨c, hc, hcidx, hcn, hcs, hci⟩ := m8 p hp hnd
      refine ⟨c, ?_, hcidx, hcn, hcs, hci⟩
      rw [hcells]
      exact List.mem_filter.mpr ⟨hc,
        decide_eq_true (by rw [hcidx]; exact (m7 p hp).1)⟩
    · rw [hmap]
      exact m5
    · rw [hmap]
      exact m6
    · rw [hcells, hmap, hfl, hb, if_neg (by decide)]
      have h1 : (out0.st.layout.cells.filter
            fun c => c.idx ≠ emptyLayout.nextCell).length + 1
          = out0.st.layout.cells.length := filter_ne_length m2 m4
      show (out0.st.layout.cells.filter fun c => c.idx ≠ emptyLayout.nextCell).length
        = out0.st.cellsById.length + 0
      omega

/-- Witness for claim C7 at the input `C 5 T 0 0;E`: a reference to the
never-defined cell id 5. -/
theorem claim_C7_witness :
    ∃ out, doRead cfgEx 8 emptyLayout ("C 5 T 0 0;E".toList) = .ok out ∧
      ((∀ n ∈ out.st.cRefs, ∃ p ∈ out.st.cellsById, p.1 = n) ∧
      (∀ p ∈ out.st.cellsById, ∃ c ∈ out.st.layout.cells, c.idx = p.2) ∧
      (∀ p ∈ out.st.cellsById, p.1 ∉ out.st.dsIds →
        ∃ c ∈ out.st.layout.cells, c.idx = p.2 ∧ c.name = "C" ++ toString p.1 ∧
          c.shapes = [] ∧ c.insts = []) ∧
      (out.st.cellsById.map Prod.fst).Nodup ∧
      (out.st.cellsById.map Prod.snd).Nodup ∧
      out.st.layout.cells.length
        = out.st.cellsById.length + (if out.flag then 1 else 0)) := by
  obtain ⟨out, hout⟩ : ∃ out, doRead cfgEx 8 emptyLayout ("C 5 T 0 0;E".toList)
      = .ok out := ⟨_, rfl⟩
  exact ⟨out, hout, claim_C7 cfgEx 8 _ out hout⟩

end CIF
